import Mathlib

/-!
Shallow embedding of the budget-app forecasting core
(`src/backend/app/predictor.py`, class `UserMLPredictor`) and proofs about it.

Modelling conventions:
* Python floats and pandas numeric columns are modelled by `ℚ`; `float('nan')`
  slots that the source checks with `pd.notna` are modelled by `Option ℚ`.
* A calendar date is identified by its month index `midx = year * 12 + (month - 1)`;
  the calendar month is `midx % 12 + 1` and the year `midx / 12`.  `pd.to_datetime`
  parsing is outside the embedding: a stored transaction always carries a valid index.
* `round(x, 2)` is modelled by exact decimal half-to-even rounding (`round2`).
* Standard deviation (pandas `std`, sample variance with `ddof=1`, `NaN` for fewer
  than two samples filled with 0 by the source) is modelled with `Rat.sqrt` of the
  sample variance; every theorem below depends only on `Rat.sqrt` being
  nonnegative and zero on zero.
* The scikit-learn `GradientBoostingRegressor` is an external library capability;
  it is embedded as an abstract regressor `fit : List (List ℚ × ℚ) → (List ℚ → ℚ)`
  passed to training, never interpreted.  Presentational bundle fields (`metrics`,
  `feature_importance`, human-readable labels) are not used by any claim and are
  not carried in the embedded bundle.
* The per-person model cache (`self._user_models`) is modelled by explicit state
  passing: `getOrTrain` / `retrainUserModel` take and return the cache as a map
  `ℕ → Option Bundle`, together with a flag recording whether `_train_model` was
  invoked (for `getOrTrain`) resp. the `success` field of the returned dict
  (for `retrainUserModel`).  The prediction entry points read the cache exactly
  once, so they are embedded as functions of the resolved `Option Bundle`.
-/

namespace BudgetApp

/-- Confidence levels of a prediction (`confidence` values `high/medium/low/none`). -/
inductive Conf where
  | high
  | medium
  | low
  | none
  deriving DecidableEq, Repr

/-- Embedding of `np.clip(x, lo, hi)` / pandas `.clip(lo, hi)`. -/
def clip (lo hi x : ℚ) : ℚ := max lo (min hi x)

/-- Embedding of `np.sign`. -/
def signQ (x : ℚ) : ℚ := if 0 < x then 1 else if x < 0 then -1 else 0

/-- Round to the nearest integer, ties to even (Python `round` on an exact value). -/
def roundHalfEven (q : ℚ) : ℤ :=
  let f := q - (⌊q⌋ : ℚ)
  if f < 1/2 then ⌊q⌋
  else if 1/2 < f then ⌊q⌋ + 1
  else if ⌊q⌋ % 2 = 0 then ⌊q⌋ else ⌊q⌋ + 1

/-- Embedding of Python `round(q, 2)` on an exact value. -/
def round2 (q : ℚ) : ℚ := (roundHalfEven (q * 100) : ℚ) / 100

/-- Arithmetic mean of a list (`pandas.Series.mean`); callers guard nonemptiness. -/
def meanQ (xs : List ℚ) : ℚ := xs.sum / (xs.length : ℚ)

/-- Sample standard deviation (pandas `std`, `ddof=1`); the source fills the
`NaN` produced for fewer than two samples with `0`. -/
def sampleStd (xs : List ℚ) : ℚ :=
  if 2 ≤ xs.length then
    Rat.sqrt ((xs.map (fun x => (x - meanQ xs)^2)).sum / ((xs.length : ℚ) - 1))
  else 0

/-- A stored expense transaction as fetched by `_get_user_transactions`:
`(id, date, amount, category)` with the date reduced to its month index. -/
structure Tx where
  id : ℕ
  category : String
  midx : ℕ
  amount : ℚ
  deriving DecidableEq, Repr

/-- A row of the monthly aggregation (`_aggregate_to_monthly` output):
one `(category, year, month)` group with summed amount and transaction count. -/
structure MRec where
  category : String
  midx : ℕ
  amount : ℚ
  txCount : ℕ
  deriving DecidableEq, Repr

/-- Calendar month (1–12) of a monthly record. -/
def MRec.monthOf (r : MRec) : ℕ := r.midx % 12 + 1

/-- Calendar year of a monthly record. -/
def MRec.yearOf (r : MRec) : ℕ := r.midx / 12

/-- Categories present in a transaction list (`monthly["category"].unique()`). -/
def catsOf (txs : List Tx) : List String := (txs.map Tx.category).dedup

/-- Month index of `df["date"].min()` (callers guard nonemptiness). -/
def loIdx (txs : List Tx) : ℕ := ((txs.map Tx.midx).min?).getD 0

/-- Month index of `df["date"].max()` (callers guard nonemptiness). -/
def hiIdx (txs : List Tx) : ℕ := ((txs.map Tx.midx).max?).getD 0

/-- Transactions of one category falling in one calendar month. -/
def monthTxs (txs : List Tx) (c : String) (m : ℕ) : List Tx :=
  txs.filter (fun t => t.category = c && t.midx = m)

/-- The gap-filled monthly series of one category over the full observed range
`[min(date), max(date)]`: the cross-join row for `(c, m)` carries the summed
amount and count for months with transactions and `0`/`0` otherwise
(`merge(..., how="left").fillna({"amount": 0, "tx_count": 0})`). -/
def monthBlock (txs : List Tx) (c : String) : List MRec :=
  (List.range' (loIdx txs) (hiIdx txs - loIdx txs + 1)).map (fun m =>
    { category := c, midx := m,
      amount := ((monthTxs txs c m).map Tx.amount).sum,
      txCount := (monthTxs txs c m).length })

/-- Embedding of `_aggregate_to_monthly`: empty input yields the empty frame;
otherwise every category is cross-joined with every month of the observed
range, sorted by `(category, year, month)`. -/
def aggregateMonthly (txs : List Tx) : List MRec :=
  if txs.isEmpty then [] else
  ((catsOf txs).map (monthBlock txs)).flatten

/-- A feature row of `_create_features`: one monthly record extended with the
engineered predictors.  Lag slots that pandas leaves as `NaN` (fewer than `k`
earlier months in the category) are `Option.none`. -/
structure FRow where
  category : String
  midx : ℕ
  amount : ℚ
  monthNum : ℕ
  lag1 : Option ℚ
  lag2 : Option ℚ
  lag3 : Option ℚ
  pctChange : ℚ
  trendDir : ℚ
  cv : ℚ
  catAvg : ℚ
  catStd : ℚ
  relToAvg : ℚ
  deriving DecidableEq, Repr

/-- Amounts of the rows of `r.category` up to and including position `i`
(pandas group-wise operations respect frame order within each category). -/
def priorAmounts (monthly : List MRec) (i : ℕ) (c : String) : List ℚ :=
  ((monthly.take (i+1)).filter (fun r => r.category = c)).map MRec.amount

/-- Amounts of all rows of category `c` (whole-series per-category statistics). -/
def catAmounts (monthly : List MRec) (c : String) : List ℚ :=
  (monthly.filter (fun r => r.category = c)).map MRec.amount

/-- Feature derivation for the row at position `i` of the monthly frame,
following `_create_features` column by column:
`month_num`; `lag_1..lag_3` (group-wise `shift`); `pct_change` (group-wise
`pct_change` with `±inf`/`NaN` mapped to 0 then clipped to `[-2, 2]`);
`trend_direction` (`sign(lag_1 - lag_2)` with `NaN` filled 0); `cv`
(3-month rolling std over rolling mean, zero mean replaced by 1, clipped to
`[0, 3]`); per-category `cat_avg`/`cat_std`; `relative_to_avg`
(`lag_1 / cat_avg` with zero mean replaced by `1e-6`, `NaN` filled 1,
clipped to `[0, 5]`). -/
def featureRow (monthly : List MRec) (i : ℕ) : FRow :=
  let r := monthly.getD i ⟨"", 0, 0, 0⟩
  let prior := priorAmounts monthly i r.category
  let j := prior.length - 1
  let lagv : ℕ → Option ℚ := fun k => if k ≤ j then some (prior.getD (j - k) 0) else none
  let pct : ℚ :=
    if j = 0 then 0 else
      let p := prior.getD (j - 1) 0
      if p = 0 then 0 else clip (-2) 2 ((r.amount - p) / p)
  let trend : ℚ :=
    if 2 ≤ j then signQ (prior.getD (j - 1) 0 - prior.getD (j - 2) 0) else 0
  let win := prior.drop (prior.length - 3)
  let rollMean := meanQ win
  let rollStd := sampleStd win
  let cvv := clip 0 3 (rollStd / (if rollMean = 0 then 1 else rollMean))
  let amounts := catAmounts monthly r.category
  let avg := meanQ amounts
  let std := sampleStd amounts
  let rel := clip 0 5 (match lagv 1 with
    | Option.none => 1
    | some l1 => l1 / (if avg = 0 then 1/1000000 else avg))
  { category := r.category, midx := r.midx, amount := r.amount,
    monthNum := r.midx % 12 + 1,
    lag1 := lagv 1, lag2 := lagv 2, lag3 := lagv 3,
    pctChange := pct, trendDir := trend, cv := cvv,
    catAvg := avg, catStd := std, relToAvg := rel }

/-- Embedding of `_create_features`: every row of the monthly frame, extended. -/
def createFeatures (monthly : List MRec) : List FRow :=
  (List.range monthly.length).map (featureRow monthly)

/-- The lag state threaded through the recursive forecast loop
(`current_lags` in `predict_next_months`). -/
structure LagState where
  lag1 : ℚ
  lag2 : ℚ
  lag3 : ℚ
  pctChange : ℚ
  cv : ℚ
  deriving DecidableEq, Repr

/-- One row of the bundle's cached `latest_lags` frame. -/
structure LagCacheRow where
  category : String
  lag1 : Option ℚ
  lag2 : Option ℚ
  lag3 : Option ℚ
  pctChange : ℚ
  cv : ℚ
  deriving DecidableEq, Repr

/-- One row of the bundle's cached `cat_stats` frame. -/
structure CatStatRow where
  category : String
  catAvg : ℚ
  catStd : ℚ
  deriving DecidableEq, Repr

/-- The per-person model bundle built by `_train_model`.  The fitted regressor
is carried as an abstract function on feature vectors; `label_encoder` is
carried as its sorted vocabulary `classes` (encoding a category is its index). -/
structure Bundle where
  model : List ℚ → ℚ
  classes : List String
  catStats : List CatStatRow
  latestLags : List LagCacheRow
  trainedAt : ℕ

/-- Sorted distinct category names (`LabelEncoder` fits a sorted vocabulary;
`groupby("category")` also emits groups in sorted key order). -/
def sortedCats (l : List String) : List String :=
  (l.dedup).insertionSort (· ≤ ·)

/-- The training design-matrix row of a feature row, in `feature_cols` order
(missing lags filled with 0 by `.fillna(0)`; they are present on every kept row). -/
def featVec (classes : List String) (r : FRow) : List ℚ :=
  [ (classes.indexOf r.category : ℚ), (r.monthNum : ℚ),
    r.lag1.getD 0, r.lag2.getD 0, r.lag3.getD 0,
    r.pctChange, r.trendDir, r.cv, r.relToAvg ]

/-- Feature rows surviving `dropna(subset=["lag_1", "lag_2", "lag_3"])`. -/
def keptRows (monthly : List MRec) : List FRow :=
  (createFeatures monthly).filter (fun r => r.lag1.isSome && r.lag2.isSome && r.lag3.isSome)

/-- The bundle's `cat_stats` snapshot: per surviving category, the (constant)
whole-series mean and std taken from its first surviving row. -/
def catStatsOf (kept : List FRow) : List CatStatRow :=
  (sortedCats (kept.map FRow.category)).map (fun c =>
    match kept.find? (fun r => r.category = c) with
    | some r => ⟨c, r.catAvg, r.catStd⟩
    | Option.none => ⟨c, 0, 0⟩)

/-- The bundle's `latest_lags` snapshot: per surviving category, the lag and
volatility fields of its chronologically last surviving row. -/
def latestLagsOf (kept : List FRow) : List LagCacheRow :=
  (sortedCats (kept.map FRow.category)).map (fun c =>
    match (kept.filter (fun r => r.category = c)).getLast? with
    | some r => ⟨c, r.lag1, r.lag2, r.lag3, r.pctChange, r.cv⟩
    | Option.none => ⟨c, Option.none, Option.none, Option.none, 0, 0⟩)

/-- Number of distinct `(year, month)` groups of the monthly frame. -/
def uniqueMonthsOf (monthly : List MRec) : ℕ := ((monthly.map MRec.midx).dedup).length

/-- Threshold `MIN_TRANSACTIONS_FOR_ML`. -/
def MIN_TX : ℕ := 30

/-- Threshold `MIN_MONTHS_FOR_ML`. -/
def MIN_MONTHS : ℕ := 4

/-- Embedding of `_train_model`: `None` below the transaction, month or usable
feature-row thresholds, otherwise the trained bundle.  `fit` abstracts
`GradientBoostingRegressor(...).fit`; `now` abstracts `datetime.now()`. -/
def trainModel (fit : List (List ℚ × ℚ) → List ℚ → ℚ) (now : ℕ) (txs : List Tx) :
    Option Bundle :=
  if txs.length < MIN_TX then none else
  let monthly := aggregateMonthly txs
  if uniqueMonthsOf monthly < MIN_MONTHS then none else
  let classes := sortedCats (monthly.map MRec.category)
  let kept := keptRows monthly
  if kept.length < 6 then none else
  some {
    model := fit (kept.map (fun r => (featVec classes r, r.amount))),
    classes := classes,
    catStats := catStatsOf kept,
    latestLags := latestLagsOf kept,
    trainedAt := now }

/-- Confidence from the coefficient of variation
(`cv < 0.3 → high`, `cv < 0.6 → medium`, else `low`). -/
def grade (cv : ℚ) : Conf :=
  if cv < 3/10 then Conf.high else if cv < 6/10 then Conf.medium else Conf.low

/-- Lookup of the category's `cat_stats` row. -/
def catRowOf (b : Bundle) (cat : String) : Option CatStatRow :=
  b.catStats.find? (fun r => r.category = cat)

/-- Lookup of the category's `latest_lags` row. -/
def lagRowOf (b : Bundle) (cat : String) : Option LagCacheRow :=
  b.latestLags.find? (fun r => r.category = cat)

/-- The lag values `_predict_with_ml` works with: cached row fields with `NaN`
lags replaced by `cat_avg`, or all-`cat_avg` when no cached row exists.
(`pct_change` and `cv` are never `NaN` in a cached row, so their `pd.notna`
guards are the identity.) -/
def resolvedLags (b : Bundle) (cat : String) (catAvg : ℚ) : LagState :=
  match lagRowOf b cat with
  | some row => ⟨row.lag1.getD catAvg, row.lag2.getD catAvg, row.lag3.getD catAvg,
                 row.pctChange, row.cv⟩
  | Option.none => ⟨catAvg, catAvg, catAvg, 0, 0⟩

/-- The constant-spending guard of `_predict_with_ml`: near-zero historical
standard deviation, or three nearly equal most recent lags. -/
def shortCircuit (catStd l1 l2 l3 : ℚ) : Prop :=
  catStd < 1/1000 ∨ (|l1 - l2| < 1/1000000 ∧ |l2 - l3| < 1/1000000)

instance (catStd l1 l2 l3 : ℚ) : Decidable (shortCircuit catStd l1 l2 l3) := by
  unfold shortCircuit; infer_instance

/-- The single-row design matrix `X` assembled by `_predict_with_ml` for the
target month from the resolved lag state. -/
def mlX (b : Bundle) (cat : String) (month : ℕ) (catAvg : ℚ) (L : LagState) : List ℚ :=
  let pct := clip (-2) 2 L.pctChange
  let trend := if L.lag2 ≠ 0 then signQ (L.lag1 - L.lag2) else 0
  let cvc := clip 0 3 L.cv
  let rel := clip 0 5 (if 0 < catAvg then L.lag1 / catAvg else 1)
  [ (b.classes.indexOf cat : ℚ), (month : ℚ), L.lag1, L.lag2, L.lag3, pct, trend, cvc, rel ]

/-- Embedding of `_predict_with_ml`: `None` for a category outside the encoder
vocabulary or without a `cat_stats` row; otherwise either the constant-spending
result or the clipped, rounded model output graded by the clipped `cv`. -/
def mlPredict (b : Bundle) (cat : String) (month : ℕ) : Option (ℚ × Conf) :=
  if cat ∉ b.classes then none else
  match catRowOf b cat with
  | Option.none => none
  | some crow =>
    let L := resolvedLags b cat crow.catAvg
    if shortCircuit crow.catStd L.lag1 L.lag2 L.lag3 then
      some (max 0 (round2 L.lag1), Conf.high)
    else
      some (max 0 (round2 (b.model (mlX b cat month crow.catAvg L))), grade (clip 0 3 L.cv))

/-- Result dictionary of `_predict_with_statistics` (the `transaction_count`
key, unread by every caller, is not carried). -/
structure StatsResult where
  amount : ℚ
  method : String
  conf : Conf
  hasData : Bool
  deriving DecidableEq, Repr

/-- Transactions of one category. -/
def catTxsOf (txs : List Tx) (cat : String) : List Tx :=
  txs.filter (fun t => t.category = cat)

/-- Per-month totals of one category, ascending by `(year, month)`; only months
with at least one transaction appear (`groupby` without gap filling). -/
def monthlyTotals (txs : List Tx) (cat : String) : List (ℕ × ℚ) :=
  ((((catTxsOf txs cat).map Tx.midx).dedup).insertionSort (· ≤ ·)).map
    (fun m => (m, ((monthTxs txs cat m).map Tx.amount).sum))

/-- Embedding of `_predict_with_statistics`: no data, no category data, mean of
the requested calendar month's totals (when at least 2), mean of the 3 most
recent totals (when at least 3 exist), overall mean, in that order. -/
def statsPredict (txs : List Tx) (cat : String) (month : ℕ) : StatsResult :=
  if txs.isEmpty then ⟨0, "no_data", Conf.none, false⟩ else
  if (catTxsOf txs cat).isEmpty then ⟨0, "no_category_data", Conf.none, false⟩ else
  let monthly := monthlyTotals txs cat
  let monthData := monthly.filter (fun p => p.1 % 12 + 1 = month)
  if 2 ≤ monthData.length then
    ⟨round2 (meanQ (monthData.map Prod.snd)), "monthly_average", Conf.medium, true⟩
  else if 3 ≤ monthly.length then
    ⟨round2 (meanQ ((monthly.drop (monthly.length - 3)).map Prod.snd)), "recent_average", Conf.low, true⟩
  else if 0 < monthly.length then
    ⟨round2 (meanQ (monthly.map Prod.snd)), "category_average", Conf.low, true⟩
  else ⟨0, "no_data", Conf.none, false⟩

/-- A prediction as returned by `predict_for_month` (the presentational
`model_metrics` key is not carried). -/
structure Prediction where
  amount : ℚ
  method : String
  conf : Conf
  hasData : Bool
  isMl : Bool
  deriving DecidableEq, Repr

/-- The statistical fallback marked `is_ml=False`. -/
def StatsResult.toPrediction (s : StatsResult) : Prediction :=
  ⟨s.amount, s.method, s.conf, s.hasData, false⟩

/-- Embedding of `predict_for_month`, taking the cache-resolved bundle: the ML
result when the bundle exists and `_predict_with_ml` returns one, otherwise the
statistical fallback.  Every fallible step on this path is guarded in the
source (`if result:`), so the embedding is total. -/
def predictForMonth (b? : Option Bundle) (txs : List Tx) (cat : String) (month : ℕ) :
    Prediction :=
  match b? with
  | some b =>
    match mlPredict b cat month with
    | some (v, c) => ⟨v, "random_forest", c, true, true⟩
    | Option.none => (statsPredict txs cat month).toPrediction
  | Option.none => (statsPredict txs cat month).toPrediction

/-- One forecast point of `predict_next_months`. -/
structure FPoint where
  month : ℕ
  year : ℕ
  amount : ℚ
  method : String
  conf : Conf
  hasData : Bool
  isMl : Bool
  deriving DecidableEq, Repr

/-- Calendar month of forecast step `i` (`((current_month - 1 + i) % 12) + 1`). -/
def futureMonth (nowM i : ℕ) : ℕ := (nowM - 1 + i) % 12 + 1

/-- Calendar year of forecast step `i` (`current_year + (current_month - 1 + i) // 12`). -/
def futureYear (nowY nowM i : ℕ) : ℕ := nowY + (nowM - 1 + i) / 12

/-- Initial `current_lags` of `predict_next_months`: zeros, overridden by the
cached latest lags (`NaN` fields falling back to 0 here, not to `cat_avg`) or,
absent a cached lag row, by the flat category average. -/
def initialLags (b? : Option Bundle) (cat : String) : LagState :=
  match b? with
  | Option.none => ⟨0, 0, 0, 0, 0⟩
  | some b =>
    if cat ∈ b.classes then
      match lagRowOf b cat with
      | some row => ⟨row.lag1.getD 0, row.lag2.getD 0, row.lag3.getD 0, row.pctChange, row.cv⟩
      | Option.none =>
        match catRowOf b cat with
        | some crow => ⟨crow.catAvg, crow.catAvg, crow.catAvg, 0, 0⟩
        | Option.none => ⟨0, 0, 0, 0, 0⟩
    else ⟨0, 0, 0, 0, 0⟩

/-- The walk-forward state update after a step predicting `predVal`: shift the
lags, recompute `pct_change` from the previous `lag_1` when positive, carry the
volatility state unchanged. -/
def updateLags (L : LagState) (predVal : ℚ) : LagState :=
  let old := L.lag1
  let newPct := if 0 < old then (predVal - old) / old else 0
  ⟨predVal, L.lag1, L.lag2, newPct, L.cv⟩

/-- The loop body of `predict_next_months` for steps `i, i+1, ..., i+k-1`.
In the ML branch the source unpacks `pred_val, conf = self._predict_with_ml(...)`
without a `None` guard; a `None` result would raise `TypeError` there, embedded
as the `Except.error` case.  (The subsequent `if pred_val is None:` block of the
source is unreachable once the unpacking has succeeded and has no embedding.)
Note that `_predict_with_ml` receives only the bundle, the category and the
month: the threaded walk-forward state `L` is updated but never read by it. -/
def pnmLoop (b? : Option Bundle) (txs : List Tx) (cat : String) (nowY nowM : ℕ) :
    List ℕ → LagState → Except String (List FPoint)
  | [], _ => Except.ok []
  | i :: rest, L =>
    let fm := futureMonth nowM i
    let fy := futureYear nowY nowM i
    match b? with
    | some b =>
      if cat ∈ b.classes then
        match mlPredict b cat fm with
        | Option.none => Except.error "TypeError: cannot unpack non-iterable NoneType object"
        | some (v, conf) =>
          (pnmLoop b? txs cat nowY nowM rest (updateLags L v)).map
            (fun rst => ⟨fm, fy, v, "gradient_boosting_recursive", conf, true, true⟩ :: rst)
      else
        let s := statsPredict txs cat fm
        (pnmLoop b? txs cat nowY nowM rest L).map
          (fun rst => ⟨fm, fy, s.amount, s.method, s.conf, s.hasData, false⟩ :: rst)
    | Option.none =>
      let s := statsPredict txs cat fm
      (pnmLoop b? txs cat nowY nowM rest L).map
        (fun rst => ⟨fm, fy, s.amount, s.method, s.conf, s.hasData, false⟩ :: rst)

/-- Embedding of `predict_next_months`, taking the cache-resolved bundle and
the current date `(nowY, nowM)`: simulate steps `1 .. months_ahead`
(`for i in range(1, max(0, months_ahead) + 1)`). -/
def predictNextMonths (b? : Option Bundle) (txs : List Tx) (cat : String)
    (monthsAhead : ℕ) (nowY nowM : ℕ) : Except String (List FPoint) :=
  pnmLoop b? txs cat nowY nowM (List.range' 1 monthsAhead) (initialLags b? cat)

/-- One entry of the `predict_all_categories` result list. -/
structure CatEntry where
  categoryId : ℕ
  category : String
  amount : ℚ
  method : String
  conf : Conf
  hasData : Bool
  isMl : Bool
  deriving DecidableEq, Repr

/-- Signed month difference `(year - now.year) * 12 + (month - now.month)`. -/
def monthsDiff (nowY nowM year month : ℕ) : ℤ :=
  ((year : ℤ) - nowY) * 12 + ((month : ℤ) - nowM)

/-- The per-category body of `predict_all_categories`: direct single-month
prediction for a past or current target, otherwise the recursive forecast with
the point matching the target `(month, year)` selected (an absent match yields
the `method="error"` entry; an exception from the recursive forecast
propagates). -/
def paEntry (b? : Option Bundle) (txs : List Tx) (nowY nowM month year : ℕ)
    (c : ℕ × String) : Except String CatEntry :=
  if monthsDiff nowY nowM year month ≤ 0 then
    let p := predictForMonth b? txs c.2 month
    Except.ok ⟨c.1, c.2, p.amount, p.method, p.conf, p.hasData, p.isMl⟩
  else
    (predictNextMonths b? txs c.2 (monthsDiff nowY nowM year month).toNat nowY nowM).map
      (fun seq =>
        match seq.find? (fun p => p.month = month && p.year = year) with
        | some p => ⟨c.1, c.2, p.amount, p.method, p.conf, p.hasData, p.isMl⟩
        | Option.none => ⟨c.1, c.2, 0, "error", Conf.none, false, false⟩)

/-- Python's ascending comparison of the sort key
`(not is_ml, not has_data, -estimated_amount)`. -/
def entryLE (a b : CatEntry) : Prop :=
  (a.isMl = b.isMl ∧ a.hasData = b.hasData ∧ -a.amount ≤ -b.amount)
  ∨ (a.isMl = b.isMl ∧ a.hasData ∧ ¬b.hasData = true)
  ∨ (a.isMl ∧ ¬b.isMl = true)

instance (a b : CatEntry) : Decidable (entryLE a b) := by
  unfold entryLE; infer_instance

/-- The accumulation of the per-category loop of `predict_all_categories`:
entries are appended in order and an exception aborts the whole call. -/
def collectEntries (f : ℕ × String → Except String CatEntry) :
    List (ℕ × String) → Except String (List CatEntry)
  | [] => Except.ok []
  | c :: rest =>
    match f c with
    | Except.error e => Except.error e
    | Except.ok y => (collectEntries f rest).map (fun ys => y :: ys)

/-- Embedding of `predict_all_categories`, taking the cache-resolved bundle,
the expense category list and the current date: per-category entries followed
by the stable sort on `(not is_ml, not has_data, -estimated_amount)`. -/
def predictAllCategories (b? : Option Bundle) (txs : List Tx)
    (cats : List (ℕ × String)) (month year nowY nowM : ℕ) :
    Except String (List CatEntry) :=
  (collectEntries (paEntry b? txs nowY nowM month year) cats).map
    (fun l => l.insertionSort entryLE)

/-- Embedding of `_get_or_train_model` as a cache-state transformer: returns
the new cache, the returned bundle, and whether `_train_model` was invoked. -/
def getOrTrain (train : ℕ → Option Bundle) (cache : ℕ → Option Bundle) (pid : ℕ) :
    (ℕ → Option Bundle) × Option Bundle × Bool :=
  match cache pid with
  | some b => (cache, some b, false)
  | Option.none =>
    match train pid with
    | some md => (fun p => if p = pid then some md else cache p, some md, true)
    | Option.none => (cache, Option.none, true)

/-- Embedding of `retrain_user_model` as a cache-state transformer: any cached
bundle is deleted first, then training runs; the flag is the `success` field of
the returned dict (the failure descriptor's counts are presentational). -/
def retrainUserModel (train : ℕ → Option Bundle) (cache : ℕ → Option Bundle) (pid : ℕ) :
    (ℕ → Option Bundle) × Bool :=
  let cache0 : ℕ → Option Bundle := fun p => if p = pid then Option.none else cache p
  match train pid with
  | some md => ((fun p => if p = pid then some md else cache0 p), true)
  | Option.none => (cache0, false)

/-! ### Concrete instances used by the claim witnesses and counterexamples -/

/-- Concrete instance for `clipped_feature_bounds`: the single-row series
`[⟨"a", 0, 5, 1⟩]`, whose unique feature row has an undefined previous month. -/
def mSingle : List MRec := [⟨"a", 0, 5, 1⟩]

/-- Concrete history for `stats_fallback_order`: March 2024 total 100 and
March 2025 total 200 for category `"food"` (month indices `2024*12+2` and
`2025*12+2`). -/
def txsTwoMarches : List Tx :=
  [⟨1, "food", 24290, 100⟩, ⟨2, "food", 24302, 200⟩]

/-- A minimal bundle value used by the concrete cache scenarios. -/
def bundleAt (n : ℕ) : Bundle := ⟨fun _ => 0, [], [], [], n⟩

/-- The cache state after training person 7 from an empty cache. -/
def cacheW : ℕ → Option Bundle :=
  fun p => if p = 7 then some (bundleAt 42) else Option.none

/-- Numeric rank of a confidence tier, for the monotonicity statement. -/
def confRank : Conf → ℕ
  | Conf.high => 3
  | Conf.medium => 2
  | Conf.low => 1
  | Conf.none => 0

/-- A concrete bundle on the model path of `_predict_with_ml`: category `"x"`
with `cat_avg = 10`, `cat_std = 5`, cached lags `(10, 20, 40)`, cached
`cv = 1/2`, and a regressor constantly returning `1.006`. -/
def bX : Bundle :=
  ⟨fun _ => 1006/1000, ["x"], [⟨"x", 10, 5⟩],
   [⟨"x", some 10, some 20, some 40, 1/2, 1/2⟩], 0⟩

/-- A concrete bundle whose regressor returns its `lag_1` input plus one:
category `"w"`, `cat_avg = 10`, `cat_std = 5` (no short-circuit), cached lags
`(10, 20, 40)`, cached `cv = 1`. -/
def bW : Bundle :=
  ⟨fun x => x.getD 2 0 + 1, ["w"], [⟨"w", 10, 5⟩],
   [⟨"w", some 10, some 20, some 40, 0, 1⟩], 0⟩

/-- Concrete scenario: 36 expense transactions of category `"food"` spread
over 12 consecutive months (indices 24300–24311, i.e. Jan–Dec 2025), three
per month with amounts 20 + 20 + 10, so every monthly total is 50. -/
def scenarioTxs : List Tx :=
  [⟨1, "food", 24300, 20⟩, ⟨2, "food", 24300, 20⟩, ⟨3, "food", 24300, 10⟩,
   ⟨4, "food", 24301, 20⟩, ⟨5, "food", 24301, 20⟩, ⟨6, "food", 24301, 10⟩,
   ⟨7, "food", 24302, 20⟩, ⟨8, "food", 24302, 20⟩, ⟨9, "food", 24302, 10⟩,
   ⟨10, "food", 24303, 20⟩, ⟨11, "food", 24303, 20⟩, ⟨12, "food", 24303, 10⟩,
   ⟨13, "food", 24304, 20⟩, ⟨14, "food", 24304, 20⟩, ⟨15, "food", 24304, 10⟩,
   ⟨16, "food", 24305, 20⟩, ⟨17, "food", 24305, 20⟩, ⟨18, "food", 24305, 10⟩,
   ⟨19, "food", 24306, 20⟩, ⟨20, "food", 24306, 20⟩, ⟨21, "food", 24306, 10⟩,
   ⟨22, "food", 24307, 20⟩, ⟨23, "food", 24307, 20⟩, ⟨24, "food", 24307, 10⟩,
   ⟨25, "food", 24308, 20⟩, ⟨26, "food", 24308, 20⟩, ⟨27, "food", 24308, 10⟩,
   ⟨28, "food", 24309, 20⟩, ⟨29, "food", 24309, 20⟩, ⟨30, "food", 24309, 10⟩,
   ⟨31, "food", 24310, 20⟩, ⟨32, "food", 24310, 20⟩, ⟨33, "food", 24310, 10⟩,
   ⟨34, "food", 24311, 20⟩, ⟨35, "food", 24311, 20⟩, ⟨36, "food", 24311, 10⟩]

/-- Concrete history with exactly three monthly totals 1, 1, 2 for category
`"food"` (January–March 2024, month indices `2024*12 .. 2024*12+2`): their
mean `4/3` is not representable in 2 decimals. -/
def txsThirds : List Tx :=
  [⟨1, "food", 24288, 1⟩, ⟨2, "food", 24289, 1⟩, ⟨3, "food", 24290, 2⟩]

/-- Concrete history of 30 transactions of category `"food"` over 9 months
(indices 24300–24308): the first eight months total `10.005` each
(`5 + 5 + 1/200`), the ninth totals `500`.  The cached lags of the trained
bundle are the totals of months 6–8 of the series (all `10.005`), so the
constant-spending guard fires even though the last observed total is 500. -/
def cxTxs : List Tx :=
  [⟨1, "food", 24300, 5⟩, ⟨2, "food", 24300, 5⟩, ⟨3, "food", 24300, 1/200⟩,
   ⟨4, "food", 24301, 5⟩, ⟨5, "food", 24301, 5⟩, ⟨6, "food", 24301, 1/200⟩,
   ⟨7, "food", 24302, 5⟩, ⟨8, "food", 24302, 5⟩, ⟨9, "food", 24302, 1/200⟩,
   ⟨10, "food", 24303, 5⟩, ⟨11, "food", 24303, 5⟩, ⟨12, "food", 24303, 1/200⟩,
   ⟨13, "food", 24304, 5⟩, ⟨14, "food", 24304, 5⟩, ⟨15, "food", 24304, 1/200⟩,
   ⟨16, "food", 24305, 5⟩, ⟨17, "food", 24305, 5⟩, ⟨18, "food", 24305, 1/200⟩,
   ⟨19, "food", 24306, 5⟩, ⟨20, "food", 24306, 5⟩, ⟨21, "food", 24306, 1/200⟩,
   ⟨22, "food", 24307, 5⟩, ⟨23, "food", 24307, 5⟩, ⟨24, "food", 24307, 1/200⟩,
   ⟨25, "food", 24308, 100⟩, ⟨26, "food", 24308, 100⟩, ⟨27, "food", 24308, 100⟩,
   ⟨28, "food", 24308, 100⟩, ⟨29, "food", 24308, 50⟩, ⟨30, "food", 24308, 50⟩]

/-! ### Generic helper lemmas -/

theorem le_clip (lo hi x : ℚ) : lo ≤ clip lo hi x := le_max_left _ _

theorem clip_le (lo hi x : ℚ) (h : lo ≤ hi) : clip lo hi x ≤ hi :=
  max_le h (min_le_left _ _)

/-! ### C7: clipped feature bounds -/

/-- C7: for every input monthly series, every engineered feature row has
`pct_change ∈ [-2, 2]` and `cv ∈ [0, 3]`, including rows whose `pct_change`
denominator (the previous month's amount) or `cv` denominator (the 3-month
rolling mean) is zero. -/
theorem clipped_feature_bounds (monthly : List MRec) (r : FRow)
    (hr : r ∈ createFeatures monthly) :
    (-2 ≤ r.pctChange ∧ r.pctChange ≤ 2) ∧ (0 ≤ r.cv ∧ r.cv ≤ 3) := by
  rcases List.mem_map.mp hr with ⟨i, _, rfl⟩
  unfold featureRow
  dsimp only
  refine ⟨⟨?_, ?_⟩, ?_, ?_⟩
  · split_ifs <;> first | exact le_clip _ _ _ | norm_num
  · split_ifs <;> first | exact clip_le _ _ _ (by norm_num) | norm_num
  · exact le_clip _ _ _
  · exact clip_le _ _ _ (by norm_num)

theorem clipped_feature_bounds_witness :
    (-2 ≤ (featureRow mSingle 0).pctChange ∧ (featureRow mSingle 0).pctChange ≤ 2)
    ∧ (0 ≤ (featureRow mSingle 0).cv ∧ (featureRow mSingle 0).cv ≤ 3) := by
  have hm : featureRow mSingle 0 ∈ createFeatures mSingle := by
    have : createFeatures mSingle = [featureRow mSingle 0] := by
      unfold createFeatures
      rfl
    rw [this]
    exact List.mem_singleton.mpr rfl
  exact clipped_feature_bounds mSingle _ hm

/-! ### C3: statistical fallback rule order -/

/-- C3 (amended: each branch rounds the mean to 2 decimal places, see
`stats_mean_rounding_cx`): `_predict_with_statistics` applies its rules in
fixed order, first satisfied rule wins: at least 2 totals of the requested
calendar month give their mean rounded to 2 decimals as
`monthly_average`/`medium`; otherwise at least 3 totals overall give the
rounded mean of the 3 most recent as `recent_average`/`low`; otherwise any
remaining history gives the rounded overall mean as `category_average`/`low`. -/
theorem stats_fallback_order (txs : List Tx) (cat : String) (month : ℕ)
    (hcat : (catTxsOf txs cat).isEmpty = false) :
    (2 ≤ ((monthlyTotals txs cat).filter (fun p => p.1 % 12 + 1 = month)).length →
      statsPredict txs cat month =
        ⟨round2 (meanQ (((monthlyTotals txs cat).filter
            (fun p => p.1 % 12 + 1 = month)).map Prod.snd)),
         "monthly_average", Conf.medium, true⟩)
    ∧ (((monthlyTotals txs cat).filter (fun p => p.1 % 12 + 1 = month)).length < 2 →
       3 ≤ (monthlyTotals txs cat).length →
      statsPredict txs cat month =
        ⟨round2 (meanQ (((monthlyTotals txs cat).drop
            ((monthlyTotals txs cat).length - 3)).map Prod.snd)),
         "recent_average", Conf.low, true⟩)
    ∧ (((monthlyTotals txs cat).filter (fun p => p.1 % 12 + 1 = month)).length < 2 →
       (monthlyTotals txs cat).length < 3 → 0 < (monthlyTotals txs cat).length →
      statsPredict txs cat month =
        ⟨round2 (meanQ ((monthlyTotals txs cat).map Prod.snd)),
         "category_average", Conf.low, true⟩) := by
  have htx : txs.isEmpty = false := by
    cases h : txs.isEmpty
    · rfl
    · exfalso
      rw [List.isEmpty_iff] at h
      rw [h] at hcat
      simp [catTxsOf] at hcat
  refine ⟨fun h2 => ?_, fun hlt h3 => ?_, fun hlt hlt3 h0 => ?_⟩
  · unfold statsPredict
    rw [htx, hcat]
    simp only [Bool.false_eq_true, if_false, if_pos h2]
  · unfold statsPredict
    rw [htx, hcat]
    simp only [Bool.false_eq_true, if_false, if_neg (by omega : ¬ 2 ≤
      ((monthlyTotals txs cat).filter (fun p => p.1 % 12 + 1 = month)).length),
      if_pos h3]
  · unfold statsPredict
    rw [htx, hcat]
    simp only [Bool.false_eq_true, if_false, if_neg (by omega : ¬ 2 ≤
      ((monthlyTotals txs cat).filter (fun p => p.1 % 12 + 1 = month)).length),
      if_neg (by omega : ¬ 3 ≤ (monthlyTotals txs cat).length), if_pos h0]

theorem stats_fallback_order_witness :
    statsPredict txsTwoMarches "food" 3 = ⟨150, "monthly_average", Conf.medium, true⟩ := by
  have h := (stats_fallback_order txsTwoMarches "food" 3 (by decide)).1 (by decide)
  rw [h]
  have hlist : ((monthlyTotals txsTwoMarches "food").filter
      (fun p => p.1 % 12 + 1 = 3)).map Prod.snd
      = [((monthTxs txsTwoMarches "food" 24290).map Tx.amount).sum,
         ((monthTxs txsTwoMarches "food" 24302).map Tx.amount).sum] := by
    simp [monthlyTotals, txsTwoMarches, catTxsOf, List.insertionSort, List.orderedInsert]
  rw [hlist]
  have h1 : ((monthTxs txsTwoMarches "food" 24290).map Tx.amount).sum = 100 := by
    simp [monthTxs, txsTwoMarches]
  have h2 : ((monthTxs txsTwoMarches "food" 24302).map Tx.amount).sum = 200 := by
    simp [monthTxs, txsTwoMarches]
  rw [h1, h2]
  have hmean : meanQ [(100 : ℚ), 200] = 150 := by
    norm_num [meanQ]
  rw [hmean]
  have : round2 150 = 150 := by
    norm_num [round2, roundHalfEven]
  rw [this]

/-! ### C8: cache idempotence -/

/-- C8: when a `_get_or_train_model` call has produced a bundle, a second call
with no intervening invalidation trains nothing and returns the identical
memoized bundle with the cache unchanged, whatever training would now do. -/
theorem cache_idempotent (train train2 : ℕ → Option Bundle)
    (cache : ℕ → Option Bundle) (pid : ℕ) (c1 : ℕ → Option Bundle) (b : Bundle)
    (dt : Bool) (h : getOrTrain train cache pid = (c1, some b, dt)) :
    getOrTrain train2 c1 pid = (c1, some b, false) := by
  have hc1 : c1 pid = some b := by
    unfold getOrTrain at h
    cases hc : cache pid with
    | some b0 =>
      rw [hc] at h
      have h1 : cache = c1 := congrArg Prod.fst h
      have h2 : some b0 = some b := congrArg (fun x => x.2.1) h
      rw [← h1, hc]
      exact h2
    | none =>
      rw [hc] at h
      cases ht : train pid with
      | some md =>
        rw [ht] at h
        have h1 : (fun p => if p = pid then some md else cache p) = c1 :=
          congrArg Prod.fst h
        have h2 : some md = some b := congrArg (fun x => x.2.1) h
        rw [← h1]
        simpa using h2
      | none =>
        rw [ht] at h
        exact absurd (congrArg (fun x => x.2.1) h) (by simp)
  unfold getOrTrain
  rw [hc1]

theorem cache_idempotent_witness :
    getOrTrain (fun _ => some (bundleAt 42)) (fun _ => Option.none) 7
      = (cacheW, some (bundleAt 42), true)
    ∧ getOrTrain (fun _ => Option.none) cacheW 7 = (cacheW, some (bundleAt 42), false) := by
  have h1 : getOrTrain (fun _ => some (bundleAt 42)) (fun _ => Option.none) 7
      = (cacheW, some (bundleAt 42), true) := rfl
  exact ⟨h1, cache_idempotent _ _ _ _ _ _ _ h1⟩

/-! ### C10: no negative caching -/

/-- C10: the cache only ever gains successfully trained bundles: a failed
training stores nothing and returns `None`, a later `_get_or_train_model` call
for that person trains again, and a forced retrain deletes any cached bundle
first, so a failed retrain leaves the person uncached with `success=False`. -/
theorem no_negative_caching (train train2 cache : ℕ → Option Bundle) (pid : ℕ) :
    (∀ q b, (getOrTrain train cache pid).1 q = some b →
      cache q = some b ∨ (q = pid ∧ train pid = some b))
    ∧ (∀ q b, (retrainUserModel train cache pid).1 q = some b →
      (q ≠ pid ∧ cache q = some b) ∨ (q = pid ∧ train pid = some b))
    ∧ (train pid = Option.none → cache pid = Option.none →
      getOrTrain train cache pid = (cache, Option.none, true)
      ∧ (getOrTrain train2 cache pid).2.2 = true)
    ∧ (train pid = Option.none →
      retrainUserModel train cache pid
        = ((fun p => if p = pid then Option.none else cache p), false)) := by
  refine ⟨?_, ?_, ?_, ?_⟩
  · intro q b hq
    unfold getOrTrain at hq
    cases hc : cache pid with
    | some b0 => rw [hc] at hq; exact Or.inl hq
    | none =>
      rw [hc] at hq
      cases ht : train pid with
      | some md =>
        rw [ht] at hq
        by_cases hqp : q = pid
        · simp only [hqp, if_pos rfl] at hq
          exact Or.inr ⟨hqp, hq⟩
        · simp only [if_neg hqp] at hq
          exact Or.inl hq
      | none => rw [ht] at hq; exact Or.inl hq
  · intro q b hq
    unfold retrainUserModel at hq
    cases ht : train pid with
    | some md =>
      rw [ht] at hq
      by_cases hqp : q = pid
      · simp only [hqp, if_pos rfl] at hq
        exact Or.inr ⟨hqp, hq⟩
      · simp only [if_neg hqp] at hq
        exact Or.inl ⟨hqp, hq⟩
    | none =>
      rw [ht] at hq
      by_cases hqp : q = pid
      · simp only [hqp, if_pos rfl] at hq
        exact absurd hq (by simp)
      · simp only [if_neg hqp] at hq
        exact Or.inl ⟨hqp, hq⟩
  · intro ht hc
    constructor
    · unfold getOrTrain
      rw [hc, ht]
    · unfold getOrTrain
      rw [hc]
      cases train2 pid <;> rfl
  · intro ht
    unfold retrainUserModel
    rw [ht]

theorem no_negative_caching_witness :
    (retrainUserModel (fun _ => Option.none) cacheW 7).1 7 = Option.none
    ∧ (retrainUserModel (fun _ => Option.none) cacheW 7).2 = false
    ∧ (getOrTrain (fun _ => Option.none) (fun _ => Option.none) 3).2.2 = true := by
  obtain ⟨-, -, -, h4⟩ :=
    no_negative_caching (fun _ => Option.none) (fun _ => Option.none) cacheW 7
  obtain ⟨-, -, h3, -⟩ :=
    no_negative_caching (fun _ => Option.none) (fun _ => Option.none)
      (fun _ => Option.none) 3
  have h4e := h4 rfl
  refine ⟨?_, ?_, ?_⟩
  · rw [h4e]
    simp
  · rw [h4e]
  · exact (h3 rfl rfl).2

/-! ### C6: ML confidence grading (and the rounding of the model output) -/

theorem clip_mono (lo hi x y : ℚ) (h : x ≤ y) : clip lo hi x ≤ clip lo hi y :=
  max_le_max (le_refl lo) (min_le_min (le_refl hi) h)

theorem confRank_grade_anti (x y : ℚ) (hxy : x ≤ y) :
    confRank (grade y) ≤ confRank (grade x) := by
  unfold grade
  split_ifs <;> simp only [confRank] <;> first | omega | linarith

/-- C6 counterexample: on `bX` the model outputs `1.006` but the returned
`estimated_amount` is `1.01` (the source rounds to 2 decimals before
clipping), so the claim "the returned `estimated_amount` is the model's
output clipped to `≥ 0`" fails at this input: `1.01 ≠ max 0 1.006`. -/
theorem ml_output_rounding_cx :
    mlPredict bX "x" 5 = some (101/100, Conf.medium)
    ∧ bX.model (mlX bX "x" 5 10 (resolvedLags bX "x" 10)) = 1006/1000
    ∧ (101/100 : ℚ) ≠ max 0 (1006/1000) := by
  refine ⟨?_, rfl, ?_⟩
  · have hsc : ¬ shortCircuit (5 : ℚ) 10 20 40 := by
      unfold shortCircuit
      push_neg
      norm_num
    have hL : resolvedLags bX "x" 10 = ⟨10, 20, 40, 1/2, 1/2⟩ := by
      simp [resolvedLags, lagRowOf, bX]
    unfold mlPredict
    rw [if_neg (not_not_intro (by simp [bX]))]
    have hrow : catRowOf bX "x" = some ⟨"x", 10, 5⟩ := by
      simp [catRowOf, bX]
    rw [hrow]
    dsimp only
    rw [hL]
    rw [if_neg hsc]
    have hmodel : bX.model (mlX bX "x" 5 10 ⟨10, 20, 40, 1/2, 1/2⟩) = 1006/1000 := rfl
    rw [hmodel]
    have hr2 : round2 (1006/1000) = 101/100 := by
      unfold round2 roundHalfEven
      have h100 : (1006 : ℚ)/1000 * 100 = 1006/10 := by norm_num
      rw [h100]
      have hfl : ⌊(1006 : ℚ)/10⌋ = 100 := by
        norm_num [Int.floor_eq_iff]
      rw [hfl]
      norm_num
    rw [hr2]
    have hmax : max (0:ℚ) (101/100) = 101/100 := max_eq_right (by norm_num)
    rw [hmax]
    have hg : grade (clip 0 3 (1/2)) = Conf.medium := by
      have hc : clip 0 3 (1/2 : ℚ) = 1/2 := by
        unfold clip
        rw [min_eq_right (by norm_num), max_eq_right (by norm_num)]
      rw [hc]
      unfold grade
      rw [if_neg (by norm_num), if_pos (by norm_num)]
    rw [hg]
  · have : max (0:ℚ) (1006/1000) = 1006/1000 := max_eq_right (by norm_num)
    rw [this]
    norm_num

/-- C6 (amended): when the short-circuit does not fire, the returned
`estimated_amount` is the model's output rounded to 2 decimals and then
clipped to `≥ 0`, the confidence is `high`/`medium`/`low` exactly by the
`cv < 0.3` / `cv < 0.6` thresholds on the clipped cached `cv`, and a smaller
`cv` never yields a strictly lower tier. -/
theorem ml_confidence_grading (b : Bundle) (cat : String) (month : ℕ)
    (crow : CatStatRow) (hcl : cat ∈ b.classes) (hrow : catRowOf b cat = some crow)
    (hnsc : ¬ shortCircuit crow.catStd (resolvedLags b cat crow.catAvg).lag1
      (resolvedLags b cat crow.catAvg).lag2 (resolvedLags b cat crow.catAvg).lag3) :
    mlPredict b cat month
      = some (max 0 (round2 (b.model (mlX b cat month crow.catAvg
          (resolvedLags b cat crow.catAvg)))),
        grade (clip 0 3 (resolvedLags b cat crow.catAvg).cv))
    ∧ (∀ cv1 cv2 : ℚ, cv1 ≤ cv2 →
        confRank (grade (clip 0 3 cv2)) ≤ confRank (grade (clip 0 3 cv1))) := by
  constructor
  · unfold mlPredict
    rw [if_neg (not_not_intro hcl), hrow]
    dsimp only
    rw [if_neg hnsc]
  · intro cv1 cv2 h
    exact confRank_grade_anti _ _ (clip_mono 0 3 cv1 cv2 h)

theorem ml_confidence_grading_witness :
    mlPredict bX "x" 5 = some (101/100, Conf.medium)
    ∧ confRank (grade (clip 0 3 (6/10 : ℚ))) ≤ confRank (grade (clip 0 3 (1/10 : ℚ))) := by
  have hnsc : ¬ shortCircuit (CatStatRow.catStd ⟨"x", 10, 5⟩)
      (resolvedLags bX "x" (CatStatRow.catAvg ⟨"x", 10, 5⟩)).lag1
      (resolvedLags bX "x" (CatStatRow.catAvg ⟨"x", 10, 5⟩)).lag2
      (resolvedLags bX "x" (CatStatRow.catAvg ⟨"x", 10, 5⟩)).lag3 := by
    have hL : resolvedLags bX "x" 10 = ⟨10, 20, 40, 1/2, 1/2⟩ := by
      simp [resolvedLags, lagRowOf, bX]
    dsimp only
    rw [hL]
    unfold shortCircuit
    push_neg
    norm_num
  have h := ml_confidence_grading bX "x" 5 ⟨"x", 10, 5⟩ (by simp [bX])
    (by simp [catRowOf, bX]) hnsc
  constructor
  · rw [h.1]
    have hL : resolvedLags bX "x" 10 = ⟨10, 20, 40, 1/2, 1/2⟩ := by
      simp [resolvedLags, lagRowOf, bX]
    dsimp only
    rw [hL]
    have hmodel : bX.model (mlX bX "x" 5 10 ⟨10, 20, 40, 1/2, 1/2⟩) = 1006/1000 := rfl
    rw [hmodel]
    have hr2 : round2 (1006/1000) = 101/100 := by
      unfold round2 roundHalfEven
      have h100 : (1006 : ℚ)/1000 * 100 = 1006/10 := by norm_num
      rw [h100]
      have hfl : ⌊(1006 : ℚ)/10⌋ = 100 := by
        norm_num [Int.floor_eq_iff]
      rw [hfl]
      norm_num
    rw [hr2]
    have hmax : max (0:ℚ) (101/100) = 101/100 := max_eq_right (by norm_num)
    rw [hmax]
    have hg : grade (clip 0 3 (1/2)) = Conf.medium := by
      have hc : clip 0 3 (1/2 : ℚ) = 1/2 := by
        unfold clip
        rw [min_eq_right (by norm_num), max_eq_right (by norm_num)]
      rw [hc]
      unfold grade
      rw [if_neg (by norm_num), if_pos (by norm_num)]
    rw [hg]
  · exact h.2 (1/10) (6/10) (by norm_num)

/-! ### C1: the walk-forward lag state is never fed back into the model -/

/-- Step lemma for the recursive forecast loop on the ML branch: a successful
`_predict_with_ml` call contributes one ML point and the loop continues with
the shifted lag state. -/
theorem pnmLoop_cons_ml (b : Bundle) (txs : List Tx) (cat : String)
    (nowY nowM i : ℕ) (rest : List ℕ) (L : LagState) (v : ℚ) (conf : Conf)
    (hcl : cat ∈ b.classes)
    (hml : mlPredict b cat (futureMonth nowM i) = some (v, conf)) :
    pnmLoop (some b) txs cat nowY nowM (i :: rest) L =
      (pnmLoop (some b) txs cat nowY nowM rest (updateLags L v)).map
        (fun rst => ⟨futureMonth nowM i, futureYear nowY nowM i, v,
          "gradient_boosting_recursive", conf, true, true⟩ :: rst) := by
  conv_lhs => rw [pnmLoop]
  rw [if_pos hcl, hml]

/-- Step lemma for the recursive forecast loop on the ML branch when
`_predict_with_ml` returns `None`: the loop raises. -/
theorem pnmLoop_cons_ml_err (b : Bundle) (txs : List Tx) (cat : String)
    (nowY nowM i : ℕ) (rest : List ℕ) (L : LagState)
    (hcl : cat ∈ b.classes)
    (hml : mlPredict b cat (futureMonth nowM i) = Option.none) :
    pnmLoop (some b) txs cat nowY nowM (i :: rest) L =
      Except.error "TypeError: cannot unpack non-iterable NoneType object" := by
  conv_lhs => rw [pnmLoop]
  rw [if_pos hcl, hml]

/-- Step lemma for the recursive forecast loop on the per-step statistical
branch (category unknown to the trained encoder). -/
theorem pnmLoop_cons_stats (b : Bundle) (txs : List Tx) (cat : String)
    (nowY nowM i : ℕ) (rest : List ℕ) (L : LagState)
    (hcl : cat ∉ b.classes) :
    pnmLoop (some b) txs cat nowY nowM (i :: rest) L =
      (pnmLoop (some b) txs cat nowY nowM rest L).map
        (fun rst => ⟨futureMonth nowM i, futureYear nowY nowM i,
          (statsPredict txs cat (futureMonth nowM i)).amount,
          (statsPredict txs cat (futureMonth nowM i)).method,
          (statsPredict txs cat (futureMonth nowM i)).conf,
          (statsPredict txs cat (futureMonth nowM i)).hasData, false⟩ :: rst) := by
  conv_lhs => rw [pnmLoop]
  rw [if_neg hcl]

/-- Step lemma for the recursive forecast loop without a trained bundle. -/
theorem pnmLoop_cons_none (txs : List Tx) (cat : String)
    (nowY nowM i : ℕ) (rest : List ℕ) (L : LagState) :
    pnmLoop Option.none txs cat nowY nowM (i :: rest) L =
      (pnmLoop Option.none txs cat nowY nowM rest L).map
        (fun rst => ⟨futureMonth nowM i, futureYear nowY nowM i,
          (statsPredict txs cat (futureMonth nowM i)).amount,
          (statsPredict txs cat (futureMonth nowM i)).method,
          (statsPredict txs cat (futureMonth nowM i)).conf,
          (statsPredict txs cat (futureMonth nowM i)).hasData, false⟩ :: rst) := by
  conv_lhs => rw [pnmLoop]

/-- C1 evaluation at the failing input: forecasting 2 months ahead from
October 2026 with `bW`, step 1 returns `11` (= cached `lag_1 + 1`), yet the
design-matrix row assembled for step 2 still carries the bundle's cached
`lag_1 = 10` in its `lag_1` slot — `_predict_with_ml` takes no lag-state
argument, so the updated `current_lags` (whose `lag_1` is step 1's output 11)
is never read and step 2 also returns `11` instead of `12`. -/
theorem walk_forward_not_injected :
    (predictNextMonths (some bW) [] "w" 2 2026 10).map (fun l => l.map FPoint.amount)
      = Except.ok [11, 11]
    ∧ (mlX bW "w" (futureMonth 10 2) 10 (resolvedLags bW "w" 10)).getD 2 0 = 10
    ∧ updateLags (initialLags (some bW) "w") 11 =
        ⟨11, 10, 20, 1/10, 1⟩
    ∧ ((10 : ℚ) ≠ 11) := by
  have hL : resolvedLags bW "w" 10 = ⟨10, 20, 40, 0, 1⟩ := by
    simp [resolvedLags, lagRowOf, bW]
  have hr2 : round2 (11 : ℚ) = 11 := by
    unfold round2 roundHalfEven
    have h100 : (11 : ℚ) * 100 = 1100 := by norm_num
    rw [h100]
    have hfl : ⌊(1100 : ℚ)⌋ = 1100 := by
      norm_num
    rw [hfl]
    norm_num
  have hml : ∀ m : ℕ, mlPredict bW "w" m = some (11, Conf.low) := by
    intro m
    unfold mlPredict
    rw [if_neg (not_not_intro (by simp [bW]))]
    have hrow : catRowOf bW "w" = some ⟨"w", 10, 5⟩ := by
      simp [catRowOf, bW]
    rw [hrow]
    dsimp only
    rw [hL]
    rw [if_neg (by unfold shortCircuit; push_neg; norm_num)]
    have hmodel : bW.model (mlX bW "w" m 10 ⟨10, 20, 40, 0, 1⟩) = 11 := by
      show ((mlX bW "w" m 10 ⟨10, 20, 40, 0, 1⟩).getD 2 0) + 1 = 11
      norm_num [mlX]
    rw [hmodel, hr2]
    have hmax : max (0:ℚ) 11 = 11 := max_eq_right (by norm_num)
    rw [hmax]
    have hg : grade (clip 0 3 (1:ℚ)) = Conf.low := by
      have hc : clip 0 3 (1 : ℚ) = 1 := by
        unfold clip
        rw [min_eq_right (by norm_num), max_eq_right (by norm_num)]
      rw [hc]
      unfold grade
      rw [if_neg (by norm_num), if_neg (by norm_num)]
    rw [hg]
  refine ⟨?_, ?_, ?_, by norm_num⟩
  · unfold predictNextMonths
    rw [show List.range' 1 2 = [1, 2] from rfl]
    rw [pnmLoop_cons_ml bW [] "w" 2026 10 1 [2] _ 11 Conf.low
      (by simp [bW]) (hml _)]
    rw [pnmLoop_cons_ml bW [] "w" 2026 10 2 [] _ 11 Conf.low
      (by simp [bW]) (hml _)]
    rfl
  · rw [hL]
    norm_num [mlX]
  · have hinit : initialLags (some bW) "w" = ⟨10, 20, 40, 0, 1⟩ := by
      simp [initialLags, lagRowOf, bW]
    rw [hinit]
    unfold updateLags
    dsimp only
    rw [if_pos (by norm_num : (0:ℚ) < 10)]
    norm_num

/-! ### Structure of the monthly aggregation -/

theorem monthBlock_category (txs : List Tx) (c : String) :
    ∀ r ∈ monthBlock txs c, r.category = c := by
  intro r hr
  rcases List.mem_map.mp hr with ⟨m, -, rfl⟩
  rfl

theorem monthBlock_map_midx (txs : List Tx) (c : String) :
    (monthBlock txs c).map MRec.midx
      = List.range' (loIdx txs) (hiIdx txs - loIdx txs + 1) := by
  unfold monthBlock
  rw [List.map_map]
  exact List.map_id _

theorem monthBlock_length (txs : List Tx) (c : String) :
    (monthBlock txs c).length = hiIdx txs - loIdx txs + 1 := by
  have h := congrArg List.length (monthBlock_map_midx txs c)
  rwa [List.length_map, List.length_range'] at h

/-- Filtering the flattened per-category blocks for one key recovers exactly
that key's block. -/
theorem filter_flatten_single {α β : Type} [DecidableEq β] (key : α → β)
    (f : β → List α) (cs : List β) (c : β) (hnd : cs.Nodup) (hc : c ∈ cs)
    (hkey : ∀ c2 ∈ cs, ∀ r ∈ f c2, key r = c2) :
    ((cs.map f).flatten.filter (fun r => key r = c)) = f c := by
  induction cs with
  | nil => cases hc
  | cons a tl ih =>
    rw [List.map_cons, List.flatten_cons, List.filter_append]
    rcases List.mem_cons.mp hc with rfl | hctl
    · have h1 : (f c).filter (fun r => key r = c) = f c :=
        List.filter_eq_self.mpr (fun r hr => by
          simp [hkey c (List.mem_cons_self _ _) r hr])
      have h2 : ((tl.map f).flatten.filter (fun r => key r = c)) = [] := by
        apply List.filter_eq_nil_iff.mpr
        intro r hr
        rcases List.mem_flatten.mp hr with ⟨l, hl, hrl⟩
        rcases List.mem_map.mp hl with ⟨c2, hc2, rfl⟩
        have hk : key r = c2 := hkey c2 (List.mem_cons_of_mem _ hc2) r hrl
        have hcne : c2 ≠ c := by
          rintro rfl
          exact (List.nodup_cons.mp hnd).1 hc2
        simp [hk, hcne]
      rw [h1, h2, List.append_nil]
    · have ha : a ≠ c := by
        rintro rfl
        exact (List.nodup_cons.mp hnd).1 hctl
      have h1 : (f a).filter (fun r => key r = c) = [] := by
        apply List.filter_eq_nil_iff.mpr
        intro r hr
        have hk : key r = a := hkey a (List.mem_cons_self _ _) r hr
        simp [hk, ha]
      rw [h1, List.nil_append]
      exact ih (List.nodup_cons.mp hnd).2 hctl
        (fun c2 h2 => hkey c2 (List.mem_cons_of_mem _ h2))

theorem aggregate_filter_eq (txs : List Tx) (hne : txs.isEmpty = false)
    (c : String) (hc : c ∈ catsOf txs) :
    (aggregateMonthly txs).filter (fun r => r.category = c) = monthBlock txs c := by
  unfold aggregateMonthly
  simp only [hne, Bool.false_eq_true, if_false]
  exact filter_flatten_single MRec.category (monthBlock txs) (catsOf txs) c
    (List.nodup_dedup _) hc (fun c2 _ r hr => monthBlock_category txs c2 r hr)

theorem aggregate_mem (txs : List Tx) (r : MRec) (hr : r ∈ aggregateMonthly txs) :
    r.category ∈ catsOf txs ∧ r ∈ monthBlock txs r.category := by
  unfold aggregateMonthly at hr
  by_cases he : txs.isEmpty
  · simp [he] at hr
  · simp only [eq_false_of_ne_true he, Bool.false_eq_true, if_false] at hr
    rcases List.mem_flatten.mp hr with ⟨l, hl, hrl⟩
    rcases List.mem_map.mp hl with ⟨c2, hc2, rfl⟩
    have hcat := monthBlock_category txs c2 r hrl
    rw [← hcat] at hc2 hrl
    exact ⟨hc2, hrl⟩

theorem loIdx_le_of_mem (txs : List Tx) (t : Tx) (ht : t ∈ txs) :
    loIdx txs ≤ t.midx := by
  unfold loIdx
  cases hm : (txs.map Tx.midx).min? with
  | none =>
    exfalso
    rw [List.min?_eq_none_iff] at hm
    have hmem : t.midx ∈ List.map Tx.midx txs := List.mem_map_of_mem Tx.midx ht
    rw [hm] at hmem
    exact List.not_mem_nil _ hmem
  | some a =>
    have h := (List.min?_eq_some_iff (fun x => Nat.le_refl x)
      (fun x y => min_choice x y) (fun x y z => le_min_iff)).mp hm
    exact h.2 t.midx (List.mem_map_of_mem Tx.midx ht)

theorem le_hiIdx_of_mem (txs : List Tx) (t : Tx) (ht : t ∈ txs) :
    t.midx ≤ hiIdx txs := by
  unfold hiIdx
  cases hm : (txs.map Tx.midx).max? with
  | none =>
    exfalso
    rw [List.max?_eq_none_iff] at hm
    exact absurd (List.mem_map_of_mem Tx.midx ht) (by rw [hm]; exact List.not_mem_nil _)
  | some a =>
    have h := (List.max?_eq_some_iff (fun x => Nat.le_refl x)
      (fun x y => max_choice x y) (fun x y z => max_le_iff)).mp hm
    exact h.2 t.midx (List.mem_map_of_mem Tx.midx ht)

theorem loIdx_le_hiIdx (txs : List Tx) (hne : txs.isEmpty = false) :
    loIdx txs ≤ hiIdx txs := by
  cases txs with
  | nil => cases hne
  | cons t ts =>
    exact le_trans (loIdx_le_of_mem _ t (List.mem_cons_self _ _))
      (le_hiIdx_of_mem _ t (List.mem_cons_self _ _))

theorem range'_filter_eq_self (s n m : ℕ) :
    ((List.range' s n).filter (fun x => x = m)).length
      = if s ≤ m ∧ m < s + n then 1 else 0 := by
  induction n generalizing s with
  | zero =>
    rw [show List.range' s 0 = [] from rfl]
    simp only [List.filter_nil, List.length_nil]
    rw [if_neg (by omega)]
  | succ k ih =>
    rw [List.range'_succ]
    by_cases hs : s = m
    · subst hs
      have hnot : (List.range' (s+1) k).filter (fun x => x = s) = [] :=
        List.filter_eq_nil_iff.mpr (fun a ha => by
          rw [List.mem_range'_1] at ha
          simp only [decide_eq_true_eq]
          omega)
      rw [List.filter_cons_of_pos (by simp), hnot]
      simp only [List.length_cons, List.length_nil]
      rw [if_pos (by omega)]
    · rw [List.filter_cons_of_neg (by simp [hs]), ih (s+1)]
      by_cases hm : s + 1 ≤ m ∧ m < s + 1 + k
      · rw [if_pos hm, if_pos (by omega)]
      · rw [if_neg hm, if_neg (by omega)]

/-! ### C4: complete rectangular panel -/

/-- C4: for a non-empty transaction set and every category present, the
monthly aggregation holds exactly one record per month of the inclusive
observed range (no gaps, no duplicates), months without transactions carry
amount 0 and count 0, and every category has the identical month-index
sequence. -/
theorem rectangular_panel (txs : List Tx) (hne : txs.isEmpty = false)
    (c : String) (hc : c ∈ txs.map Tx.category) :
    (∀ m : ℕ, ((aggregateMonthly txs).filter
        (fun r => r.category = c ∧ r.midx = m)).length
      = if loIdx txs ≤ m ∧ m ≤ hiIdx txs then 1 else 0)
    ∧ (∀ r ∈ aggregateMonthly txs, r.category = c →
        monthTxs txs c r.midx = [] → r.amount = 0 ∧ r.txCount = 0)
    ∧ (∀ c2, c2 ∈ txs.map Tx.category →
        ((aggregateMonthly txs).filter (fun r => r.category = c)).map MRec.midx
        = ((aggregateMonthly txs).filter (fun r => r.category = c2)).map MRec.midx) := by
  have hcd : c ∈ catsOf txs := List.mem_dedup.mpr hc
  refine ⟨?_, ?_, ?_⟩
  · intro m
    have hsplit : (aggregateMonthly txs).filter (fun r => r.category = c ∧ r.midx = m)
        = ((aggregateMonthly txs).filter (fun r => r.category = c)).filter
            (fun r => r.midx = m) := by
      rw [List.filter_filter]
      exact List.filter_congr (fun r _ => by
        by_cases h1 : r.category = c <;> by_cases h2 : r.midx = m <;> simp [h1, h2])
    rw [hsplit, aggregate_filter_eq txs hne c hcd]
    unfold monthBlock
    rw [← List.countP_eq_length_filter, List.countP_map]
    have hcong : List.countP
        ((fun r : MRec => decide (r.midx = m)) ∘ (fun mm =>
          ({ category := c, midx := mm,
             amount := ((monthTxs txs c mm).map Tx.amount).sum,
             txCount := (monthTxs txs c mm).length } : MRec)))
        (List.range' (loIdx txs) (hiIdx txs - loIdx txs + 1))
        = List.countP (fun x => decide (x = m))
          (List.range' (loIdx txs) (hiIdx txs - loIdx txs + 1)) :=
      List.countP_congr (fun x _ => by rfl)
    rw [hcong, List.countP_eq_length_filter, range'_filter_eq_self]
    have hlh := loIdx_le_hiIdx txs hne
    by_cases hm : loIdx txs ≤ m ∧ m ≤ hiIdx txs
    · rw [if_pos (by omega), if_pos hm]
    · rw [if_neg (by omega), if_neg hm]
  · intro r hr hrc hempty
    obtain ⟨-, hblk⟩ := aggregate_mem txs r hr
    rcases List.mem_map.mp hblk with ⟨m, -, hrm⟩
    have hmidx : r.midx = m := by rw [← hrm]
    rw [hrc] at hrm
    rw [hmidx] at hempty
    constructor
    · have := congrArg MRec.amount hrm
      dsimp at this
      rw [← this, hempty]
      rfl
    · have := congrArg MRec.txCount hrm
      dsimp at this
      rw [← this, hempty]
      rfl
  · intro c2 hc2
    rw [aggregate_filter_eq txs hne c hcd,
      aggregate_filter_eq txs hne c2 (List.mem_dedup.mpr hc2),
      monthBlock_map_midx, monthBlock_map_midx]

theorem rectangular_panel_witness :
    ((aggregateMonthly txsTwoMarches).filter
        (fun r => r.category = "food" ∧ r.midx = 24295)).length = 1
    ∧ ((aggregateMonthly txsTwoMarches).filter
        (fun r => r.category = "food" ∧ r.midx = 24289)).length = 0 := by
  have h := (rectangular_panel txsTwoMarches (by decide) "food" (by decide)).1
  constructor
  · rw [h 24295, if_pos (by decide)]
  · rw [h 24289, if_neg (by decide)]

/-! ### Characterization of a trained bundle -/

theorem trainModel_eq (fit : List (List ℚ × ℚ) → List ℚ → ℚ) (now : ℕ)
    (txs : List Tx) (b : Bundle) (h : trainModel fit now txs = some b) :
    MIN_TX ≤ txs.length
    ∧ MIN_MONTHS ≤ uniqueMonthsOf (aggregateMonthly txs)
    ∧ 6 ≤ (keptRows (aggregateMonthly txs)).length
    ∧ b.classes = sortedCats ((aggregateMonthly txs).map MRec.category)
    ∧ b.catStats = catStatsOf (keptRows (aggregateMonthly txs))
    ∧ b.latestLags = latestLagsOf (keptRows (aggregateMonthly txs)) := by
  unfold trainModel at h
  by_cases h1 : txs.length < MIN_TX
  · rw [if_pos h1] at h
    exact absurd h (by simp)
  · rw [if_neg h1] at h
    dsimp only at h
    by_cases h2 : uniqueMonthsOf (aggregateMonthly txs) < MIN_MONTHS
    · rw [if_pos h2] at h
      exact absurd h (by simp)
    · rw [if_neg h2] at h
      by_cases h3 : (keptRows (aggregateMonthly txs)).length < 6
      · rw [if_pos h3] at h
        exact absurd h (by simp)
      · rw [if_neg h3] at h
        have hb := Option.some.inj h
        refine ⟨by omega, by omega, by omega, ?_, ?_, ?_⟩
        · rw [← hb]
        · rw [← hb]
        · rw [← hb]

theorem featureRow_mem (M : List MRec) (i : ℕ) (h : i < M.length) :
    featureRow M i ∈ createFeatures M :=
  List.mem_map.mpr ⟨i, List.mem_range.mpr h, rfl⟩

theorem featureRow_category (M : List MRec) (i : ℕ) :
    (featureRow M i).category = (M.getD i ⟨"", 0, 0, 0⟩).category := rfl

theorem featureRow_lag_isSome (M : List MRec) (i : ℕ) :
    ((featureRow M i).lag1.isSome = true
        ↔ 2 ≤ (priorAmounts M i ((M.getD i ⟨"", 0, 0, 0⟩).category)).length)
    ∧ ((featureRow M i).lag2.isSome = true
        ↔ 3 ≤ (priorAmounts M i ((M.getD i ⟨"", 0, 0, 0⟩).category)).length)
    ∧ ((featureRow M i).lag3.isSome = true
        ↔ 4 ≤ (priorAmounts M i ((M.getD i ⟨"", 0, 0, 0⟩).category)).length) := by
  unfold featureRow
  dsimp only
  simp only [List.getD_eq_getElem?_getD]
  refine ⟨?_, ?_, ?_⟩ <;> (split_ifs with hj <;> simp <;> omega)

theorem featureRow_mem_kept (M : List MRec) (i : ℕ) (h : i < M.length)
    (h4 : 4 ≤ (priorAmounts M i ((M.getD i ⟨"", 0, 0, 0⟩).category)).length) :
    featureRow M i ∈ keptRows M := by
  unfold keptRows
  rw [List.mem_filter]
  refine ⟨featureRow_mem M i h, ?_⟩
  obtain ⟨hl1, hl2, hl3⟩ := featureRow_lag_isSome M i
  rw [Bool.and_eq_true, Bool.and_eq_true]
  exact ⟨⟨hl1.mpr (by omega), hl2.mpr (by omega)⟩, hl3.mpr h4⟩

/-- Any list with at least `k + 1` matches of `p` has a position whose prefix
(inclusive) already holds `k + 1` matches, with a match at that position. -/
theorem exists_nth_occurrence {α : Type} (p : α → Bool) (d : α) :
    ∀ (l : List α) (k : ℕ), k + 1 ≤ (l.filter p).length →
    ∃ i, i < l.length ∧ p (l.getD i d) = true
      ∧ k + 1 ≤ ((l.take (i+1)).filter p).length := by
  intro l
  induction l with
  | nil => intro k hk; simp at hk
  | cons a t ih =>
    intro k hk
    by_cases hpa : p a = true
    · cases k with
      | zero =>
        refine ⟨0, by simp, by simpa using hpa, ?_⟩
        rw [List.take_succ_cons, List.take_zero, List.filter_cons_of_pos hpa]
        simp
      | succ k2 =>
        rw [List.filter_cons_of_pos hpa, List.length_cons] at hk
        obtain ⟨i, hi, hp, hcnt⟩ := ih k2 (by omega)
        refine ⟨i + 1, by simpa using hi, by simpa using hp, ?_⟩
        rw [List.take_succ_cons, List.filter_cons_of_pos hpa, List.length_cons]
        omega
    · rw [List.filter_cons_of_neg hpa] at hk
      obtain ⟨i, hi, hp, hcnt⟩ := ih k hk
      refine ⟨i + 1, by simpa using hi, by simpa using hp, ?_⟩
      rw [List.take_succ_cons, List.filter_cons_of_neg hpa]
      exact hcnt

theorem kept_exists (txs : List Tx) (hne : txs.isEmpty = false)
    (hR : 4 ≤ hiIdx txs - loIdx txs + 1) (c : String) (hc : c ∈ catsOf txs) :
    ∃ r ∈ keptRows (aggregateMonthly txs), r.category = c := by
  have h4 : 4 ≤ ((aggregateMonthly txs).filter (fun r => r.category = c)).length := by
    rw [aggregate_filter_eq txs hne c hc, monthBlock_length]
    exact hR
  obtain ⟨i, hi, hp, hcnt⟩ :=
    exists_nth_occurrence (fun r => decide (r.category = c)) ⟨"", 0, 0, 0⟩
      (aggregateMonthly txs) 3 h4
  rw [decide_eq_true_eq] at hp
  refine ⟨featureRow (aggregateMonthly txs) i, ?_, ?_⟩
  · apply featureRow_mem_kept (aggregateMonthly txs) i hi
    unfold priorAmounts
    rw [List.length_map, hp]
    have : (List.filter (fun r => decide (r.category = c))
        ((aggregateMonthly txs).take (i+1))).length
        = ((aggregateMonthly txs).take (i+1)).countP (fun r => decide (r.category = c)) := by
      rw [List.countP_eq_length_filter]
    omega
  · rw [featureRow_category, hp]

theorem uniqueMonths_le (txs : List Tx) :
    uniqueMonthsOf (aggregateMonthly txs) ≤ hiIdx txs - loIdx txs + 1 := by
  unfold uniqueMonthsOf
  have hsub : ((aggregateMonthly txs).map MRec.midx).dedup
      ⊆ List.range' (loIdx txs) (hiIdx txs - loIdx txs + 1) := by
    intro x hx
    rw [List.mem_dedup] at hx
    rcases List.mem_map.mp hx with ⟨r, hr, rfl⟩
    obtain ⟨-, hblk⟩ := aggregate_mem txs r hr
    rcases List.mem_map.mp hblk with ⟨m, hm, hrm⟩
    have hx2 : r.midx = m := by rw [← hrm]
    rw [hx2]
    exact hm
  have h := List.Subperm.length_le
    ((List.nodup_dedup _).subperm hsub)
  rwa [List.length_range'] at h

/-- For every category of a trained bundle's vocabulary, `_predict_with_ml`
returns a value: the rectangular panel together with the month threshold
guarantees a surviving feature row (hence a `cat_stats` row) per category. -/
theorem mlPredict_isSome_of_trained (fit : List (List ℚ × ℚ) → List ℚ → ℚ)
    (now : ℕ) (txs : List Tx) (b : Bundle) (h : trainModel fit now txs = some b)
    (cat : String) (hcat : cat ∈ b.classes) (month : ℕ) :
    (mlPredict b cat month).isSome = true := by
  obtain ⟨htx, hum, hkept, hcls, hcs, hll⟩ := trainModel_eq fit now txs b h
  have hne : txs.isEmpty = false := by
    cases txs with
    | nil => simp [MIN_TX] at htx
    | cons t ts => rfl
  have hcat2 : cat ∈ (aggregateMonthly txs).map MRec.category := by
    rw [hcls] at hcat
    unfold sortedCats at hcat
    rw [List.mem_insertionSort, List.mem_dedup] at hcat
    exact hcat
  have hcat3 : cat ∈ catsOf txs := by
    rcases List.mem_map.mp hcat2 with ⟨r, hr, rfl⟩
    exact (aggregate_mem txs r hr).1
  have hR : 4 ≤ hiIdx txs - loIdx txs + 1 := by
    have := uniqueMonths_le txs
    have hm4 : (4 : ℕ) ≤ uniqueMonthsOf (aggregateMonthly txs) := hum
    omega
  obtain ⟨r, hrk, hrc⟩ := kept_exists txs hne hR cat hcat3
  have hck : cat ∈ sortedCats ((keptRows (aggregateMonthly txs)).map FRow.category) := by
    unfold sortedCats
    rw [List.mem_insertionSort, List.mem_dedup]
    exact List.mem_map.mpr ⟨r, hrk, hrc⟩
  have hcrow : (catRowOf b cat).isSome = true := by
    unfold catRowOf
    rw [hcs]
    apply List.find?_isSome.mpr
    unfold catStatsOf
    refine ⟨_, List.mem_map_of_mem _ hck, ?_⟩
    dsimp only
    cases (keptRows (aggregateMonthly txs)).find? (fun r2 => r2.category = cat) <;> simp
  obtain ⟨crow, hcw⟩ := Option.isSome_iff_exists.mp hcrow
  unfold mlPredict
  rw [if_neg (not_not_intro hcat), hcw]
  dsimp only
  split_ifs <;> rfl

/-! ### Totality of the recursive forecast -/

theorem pnmLoop_ok (b? : Option Bundle) (txs : List Tx) (cat : String)
    (nowY nowM : ℕ)
    (H : ∀ b, b? = some b → cat ∈ b.classes → ∀ m, (mlPredict b cat m).isSome = true) :
    ∀ (steps : List ℕ) (L : LagState), ∃ l,
      pnmLoop b? txs cat nowY nowM steps L = Except.ok l
      ∧ l.map (fun p => (p.month, p.year))
          = steps.map (fun i => (futureMonth nowM i, futureYear nowY nowM i)) := by
  intro steps
  induction steps with
  | nil => intro L; exact ⟨[], rfl, rfl⟩
  | cons i rest ih =>
    intro L
    cases b? with
    | none =>
      obtain ⟨l, hl, hmap⟩ := ih L
      refine ⟨⟨futureMonth nowM i, futureYear nowY nowM i,
        (statsPredict txs cat (futureMonth nowM i)).amount,
        (statsPredict txs cat (futureMonth nowM i)).method,
        (statsPredict txs cat (futureMonth nowM i)).conf,
        (statsPredict txs cat (futureMonth nowM i)).hasData, false⟩ :: l, ?_, ?_⟩
      · rw [pnmLoop_cons_none, hl]
        rfl
      · simp [hmap]
    | some b =>
      by_cases hcl : cat ∈ b.classes
      · have hs := H b rfl hcl (futureMonth nowM i)
        obtain ⟨vc, hvc⟩ := Option.isSome_iff_exists.mp hs
        obtain ⟨l, hl, hmap⟩ := ih (updateLags L vc.1)
        refine ⟨⟨futureMonth nowM i, futureYear nowY nowM i, vc.1,
          "gradient_boosting_recursive", vc.2, true, true⟩ :: l, ?_, ?_⟩
        · rw [pnmLoop_cons_ml b txs cat nowY nowM i rest L vc.1 vc.2 hcl
            (by rw [hvc]), hl]
          rfl
        · simp [hmap]
      · obtain ⟨l, hl, hmap⟩ := ih L
        refine ⟨⟨futureMonth nowM i, futureYear nowY nowM i,
          (statsPredict txs cat (futureMonth nowM i)).amount,
          (statsPredict txs cat (futureMonth nowM i)).method,
          (statsPredict txs cat (futureMonth nowM i)).conf,
          (statsPredict txs cat (futureMonth nowM i)).hasData, false⟩ :: l, ?_, ?_⟩
        · rw [pnmLoop_cons_stats b txs cat nowY nowM i rest L hcl, hl]
          rfl
        · simp [hmap]

/-! ### C2: the forecasting core never raises -/

/-- C2: with any transaction history, `predict_for_month` absorbs a `None`
from `_predict_with_ml` into the statistical fallback, and
`predict_next_months` on the lazily trained bundle always returns a forecast
list — in particular the unguarded tuple unpacking in its loop can never see
`None`, because every category of a trained vocabulary retains a surviving
feature row (`mlPredict_isSome_of_trained`). -/
theorem forecasting_core_total (fit : List (List ℚ × ℚ) → List ℚ → ℚ)
    (now : ℕ) (txs : List Tx) (cat : String) (n nowY nowM month : ℕ) :
    (∀ b : Bundle, mlPredict b cat month = Option.none →
      predictForMonth (some b) txs cat month = (statsPredict txs cat month).toPrediction)
    ∧ ∃ l, predictNextMonths (trainModel fit now txs) txs cat n nowY nowM
        = Except.ok l := by
  constructor
  · intro b hnone
    unfold predictForMonth
    dsimp only
    rw [hnone]
  · have H : ∀ b, trainModel fit now txs = some b → cat ∈ b.classes →
        ∀ m, (mlPredict b cat m).isSome = true :=
      fun b hb hcl m => mlPredict_isSome_of_trained fit now txs b hb cat hcl m
    obtain ⟨l, hl, -⟩ := pnmLoop_ok (trainModel fit now txs) txs cat nowY nowM H
      (List.range' 1 n) (initialLags (trainModel fit now txs) cat)
    exact ⟨l, hl⟩

theorem forecasting_core_total_witness :
    mlPredict (bundleAt 0) "z" 4 = Option.none
    ∧ predictForMonth (some (bundleAt 0)) [] "z" 4 = (statsPredict [] "z" 4).toPrediction
    ∧ ∃ l, predictNextMonths (trainModel (fun _ _ => 0) 0 []) [] "z" 1 2026 5
        = Except.ok l := by
  have hml : mlPredict (bundleAt 0) "z" 4 = Option.none := rfl
  have h := forecasting_core_total (fun _ _ => 0) 0 [] "z" 1 2026 5 4
  exact ⟨hml, h.1 (bundleAt 0) hml, h.2⟩

/-! ### Constant category series through training -/

theorem ratSqrt_zero : Rat.sqrt 0 = 0 := by
  rw [show (0 : ℚ) = ((0 : ℕ) : ℚ) by norm_num, Rat.sqrt_natCast]
  norm_num

theorem meanQ_replicate (n : ℕ) (v : ℚ) (hn : n ≠ 0) :
    meanQ (List.replicate n v) = v := by
  unfold meanQ
  rw [List.sum_replicate, List.length_replicate, nsmul_eq_mul]
  exact mul_div_cancel_left₀ v (by exact_mod_cast hn)

theorem sampleStd_const (l : List ℚ) (v : ℚ) (hconst : ∀ x ∈ l, x = v) :
    sampleStd l = 0 := by
  unfold sampleStd
  split_ifs with h2
  · have hrep : l = List.replicate l.length v :=
      List.eq_replicate.mpr ⟨rfl, hconst⟩
    have hmean : meanQ l = v := by
      rw [hrep, List.length_replicate] at *
      exact meanQ_replicate _ _ (by omega)
    have hzero : (l.map (fun x => (x - meanQ l)^2)).sum = 0 := by
      rw [hmean]
      have : ∀ x ∈ l.map (fun x => (x - v)^2), x = 0 := by
        intro x hx
        rcases List.mem_map.mp hx with ⟨y, hy, rfl⟩
        rw [hconst y hy]
        ring
      rw [List.eq_replicate.mpr ⟨rfl, this⟩, List.sum_replicate, smul_zero]
    rw [hzero, zero_div, ratSqrt_zero]
  · rfl

theorem catAmounts_const (M : List MRec) (c : String) (v : ℚ)
    (hconst : ∀ r ∈ M, r.category = c → r.amount = v) :
    ∀ y ∈ catAmounts M c, y = v := by
  intro y hy
  unfold catAmounts at hy
  rcases List.mem_map.mp hy with ⟨r, hr, rfl⟩
  rw [List.mem_filter] at hr
  exact hconst r hr.1 (by simpa using hr.2)

theorem priorAmounts_const (M : List MRec) (i : ℕ) (c : String) (v : ℚ)
    (hconst : ∀ r ∈ M, r.category = c → r.amount = v) :
    ∀ y ∈ priorAmounts M i c, y = v := by
  intro y hy
  unfold priorAmounts at hy
  rcases List.mem_map.mp hy with ⟨r, hr, rfl⟩
  rw [List.mem_filter] at hr
  exact hconst r (List.mem_of_mem_take hr.1) (by simpa using hr.2)

theorem kept_shape (M : List MRec) (r : FRow) (hr : r ∈ keptRows M) :
    ∃ i, i < M.length ∧ r = featureRow M i
      ∧ r.lag1.isSome = true ∧ r.lag2.isSome = true ∧ r.lag3.isSome = true := by
  unfold keptRows at hr
  rw [List.mem_filter] at hr
  obtain ⟨hmem, hlags⟩ := hr
  rcases List.mem_map.mp hmem with ⟨i, hi, hieq⟩
  rw [Bool.and_eq_true, Bool.and_eq_true] at hlags
  exact ⟨i, List.mem_range.mp hi, hieq.symm, hlags.1.1, hlags.1.2, hlags.2⟩

theorem featureRow_catStd (M : List MRec) (i : ℕ) :
    (featureRow M i).catStd
      = sampleStd (catAmounts M ((featureRow M i).category)) := rfl

theorem featureRow_lag1_val (M : List MRec) (i : ℕ)
    (h2 : 2 ≤ (priorAmounts M i ((M.getD i ⟨"", 0, 0, 0⟩).category)).length) :
    ∃ y ∈ priorAmounts M i ((M.getD i ⟨"", 0, 0, 0⟩).category),
      (featureRow M i).lag1 = some y := by
  have hlt : (priorAmounts M i ((M.getD i ⟨"", 0, 0, 0⟩).category)).length - 1 - 1
      < (priorAmounts M i ((M.getD i ⟨"", 0, 0, 0⟩).category)).length := by omega
  refine ⟨(priorAmounts M i ((M.getD i ⟨"", 0, 0, 0⟩).category)).getD
    ((priorAmounts M i ((M.getD i ⟨"", 0, 0, 0⟩).category)).length - 1 - 1) 0, ?_, ?_⟩
  · rw [List.getD_eq_getElem _ _ hlt]
    exact List.getElem_mem hlt
  · unfold featureRow
    dsimp only
    rw [if_pos (by omega)]

/-- First-match lookup over a keyed map construction: the first row whose key
is `c` is the row built for `c`. -/
theorem find?_map_key {β : Type} (key : β → String) (f : String → β)
    (hkey : ∀ x, key (f x) = x) :
    ∀ (cs : List String) (c : String), c ∈ cs →
    (cs.map f).find? (fun r => key r = c) = some (f c) := by
  intro cs
  induction cs with
  | nil => intro c hc; cases hc
  | cons a tl ih =>
    intro c hc
    rw [List.map_cons]
    by_cases hac : a = c
    · subst hac
      rw [List.find?_cons_of_pos _ (by simp [hkey])]
    · rw [List.find?_cons_of_neg _ (by simp [hkey, hac])]
      exact ih c ((List.mem_cons.mp hc).resolve_left (fun h => hac h.symm))

theorem latestLagsOf_elem_category (kept : List FRow) (x : String) :
    ((fun c => match (kept.filter (fun r : FRow => r.category = c)).getLast? with
      | some r => (⟨c, r.lag1, r.lag2, r.lag3, r.pctChange, r.cv⟩ : LagCacheRow)
      | Option.none => ⟨c, Option.none, Option.none, Option.none, 0, 0⟩) x).category
      = x := by
  show (match (kept.filter (fun r : FRow => r.category = x)).getLast? with
    | some r => (⟨x, r.lag1, r.lag2, r.lag3, r.pctChange, r.cv⟩ : LagCacheRow)
    | Option.none => ⟨x, Option.none, Option.none, Option.none, 0, 0⟩).category = x
  cases (kept.filter (fun r : FRow => r.category = x)).getLast? <;> rfl

theorem catStatsOf_elem_category (kept : List FRow) (x : String) :
    ((fun c => match kept.find? (fun r : FRow => r.category = c) with
      | some r => (⟨c, r.catAvg, r.catStd⟩ : CatStatRow)
      | Option.none => ⟨c, 0, 0⟩) x).category = x := by
  show (match kept.find? (fun r : FRow => r.category = x) with
    | some r => (⟨x, r.catAvg, r.catStd⟩ : CatStatRow)
    | Option.none => ⟨x, 0, 0⟩).category = x
  cases kept.find? (fun r : FRow => r.category = x) <;> rfl

/-! ### C5: constant-spending short-circuit -/

/-- Short-circuit behaviour of `_predict_with_ml`. -/
theorem mlPredict_sc (b : Bundle) (cat : String) (month : ℕ) (crow : CatStatRow)
    (hcl : cat ∈ b.classes) (hrow : catRowOf b cat = some crow)
    (hsc : shortCircuit crow.catStd (resolvedLags b cat crow.catAvg).lag1
      (resolvedLags b cat crow.catAvg).lag2 (resolvedLags b cat crow.catAvg).lag3) :
    mlPredict b cat month
      = some (max 0 (round2 (resolvedLags b cat crow.catAvg).lag1), Conf.high) := by
  unfold mlPredict
  rw [if_neg (not_not_intro hcl), hrow]
  dsimp only
  rw [if_pos hsc]

/-- C5 (amended: the value returned is the cached `lag_1` — the total of the
month preceding the last observed month — rounded to 2 decimals, not the
last observed value, see `short_circuit_not_last_observed`): whenever the
category's cached standard deviation is below `1e-3` or its three cached
lags are within `1e-6` of each other, `_predict_with_ml` skips the model and
returns the cached `lag_1` (rounded, clipped to `≥ 0`) with
`confidence=high`; consequently a category whose gap-filled monthly series
is constantly `v` (e.g. 12 identical totals of 50) forecasts
`max 0 (round2 v)` (= 50) with `confidence=high` for any target month. -/
theorem constant_spending_short_circuit :
    (∀ (b : Bundle) (cat : String) (month : ℕ) (crow : CatStatRow),
      cat ∈ b.classes → catRowOf b cat = some crow →
      shortCircuit crow.catStd (resolvedLags b cat crow.catAvg).lag1
        (resolvedLags b cat crow.catAvg).lag2 (resolvedLags b cat crow.catAvg).lag3 →
      mlPredict b cat month
        = some (max 0 (round2 (resolvedLags b cat crow.catAvg).lag1), Conf.high))
    ∧ (∀ (fit : List (List ℚ × ℚ) → List ℚ → ℚ) (now : ℕ) (txs : List Tx)
        (b : Bundle) (cat : String) (month : ℕ) (v : ℚ),
      trainModel fit now txs = some b → cat ∈ b.classes →
      (∀ r ∈ aggregateMonthly txs, r.category = cat → r.amount = v) →
      predictForMonth (some b) txs cat month
        = ⟨max 0 (round2 v), "random_forest", Conf.high, true, true⟩) := by
  constructor
  · exact fun b cat month crow hcl hrow hsc => mlPredict_sc b cat month crow hcl hrow hsc
  · intro fit now txs b cat month v htr hcl hconst
    obtain ⟨htx, hum, hkept, hcls, hcs, hll⟩ := trainModel_eq fit now txs b htr
    have hne : txs.isEmpty = false := by
      cases txs with
      | nil => simp [MIN_TX] at htx
      | cons t ts => rfl
    have hcat2 : cat ∈ (aggregateMonthly txs).map MRec.category := by
      rw [hcls] at hcl
      unfold sortedCats at hcl
      rw [List.mem_insertionSort, List.mem_dedup] at hcl
      exact hcl
    have hcat3 : cat ∈ catsOf txs := by
      rcases List.mem_map.mp hcat2 with ⟨r, hr, rfl⟩
      exact (aggregate_mem txs r hr).1
    have hR : 4 ≤ hiIdx txs - loIdx txs + 1 := by
      have h1 := uniqueMonths_le txs
      have h2 : (4 : ℕ) ≤ uniqueMonthsOf (aggregateMonthly txs) := hum
      omega
    obtain ⟨r0, hr0k, hr0c⟩ := kept_exists txs hne hR cat hcat3
    have hckS : cat ∈ sortedCats ((keptRows (aggregateMonthly txs)).map FRow.category) := by
      unfold sortedCats
      rw [List.mem_insertionSort, List.mem_dedup]
      exact List.mem_map.mpr ⟨r0, hr0k, hr0c⟩
    -- the cat_stats row of `cat` carries a zero standard deviation
    have hfind1 : ((keptRows (aggregateMonthly txs)).find?
        (fun r => r.category = cat)).isSome = true :=
      List.find?_isSome.mpr ⟨r0, hr0k, by simp [hr0c]⟩
    obtain ⟨r1, hr1⟩ := Option.isSome_iff_exists.mp hfind1
    have hr1cat : r1.category = cat := by
      have := List.find?_some hr1
      simpa using this
    have hr1mem : r1 ∈ keptRows (aggregateMonthly txs) := List.mem_of_find?_eq_some hr1
    have hr1std : r1.catStd = 0 := by
      obtain ⟨i, hi, hieq, -, -, -⟩ := kept_shape _ _ hr1mem
      rw [hieq, featureRow_catStd, ← hieq, hr1cat]
      exact sampleStd_const _ v (catAmounts_const _ _ _ hconst)
    have hcrow : catRowOf b cat = some ⟨cat, r1.catAvg, r1.catStd⟩ := by
      unfold catRowOf
      rw [hcs]
      unfold catStatsOf
      rw [find?_map_key CatStatRow.category _ (catStatsOf_elem_category _) _ cat hckS]
      rw [hr1]
    -- the latest_lags row of `cat` carries lag_1 = v
    have hfil : r0 ∈ (keptRows (aggregateMonthly txs)).filter
        (fun r => r.category = cat) :=
      List.mem_filter.mpr ⟨hr0k, by simp [hr0c]⟩
    have hlast : ((keptRows (aggregateMonthly txs)).filter
        (fun r => r.category = cat)).getLast?.isSome = true := by
      cases hfl : (keptRows (aggregateMonthly txs)).filter (fun r => r.category = cat) with
      | nil => rw [hfl] at hfil; cases hfil
      | cons a tl => simp [List.getLast?_isSome]
    obtain ⟨r2, hr2⟩ := Option.isSome_iff_exists.mp hlast
    have hr2mem : r2 ∈ keptRows (aggregateMonthly txs) := by
      have := List.mem_of_mem_getLast? hr2
      exact (List.mem_filter.mp this).1
    have hr2cat : r2.category = cat := by
      have := List.mem_of_mem_getLast? hr2
      simpa using (List.mem_filter.mp this).2
    have hr2lag : r2.lag1 = some v := by
      obtain ⟨i2, hi2, hieq2, hs1, -, -⟩ := kept_shape _ _ hr2mem
      have hcnt : 2 ≤ (priorAmounts (aggregateMonthly txs) i2
          (((aggregateMonthly txs).getD i2 ⟨"", 0, 0, 0⟩).category)).length := by
        have := (featureRow_lag_isSome (aggregateMonthly txs) i2).1
        rw [← hieq2] at this
        exact this.mp hs1
      obtain ⟨y, hy, hval⟩ := featureRow_lag1_val (aggregateMonthly txs) i2 hcnt
      have hcat' : ((aggregateMonthly txs).getD i2 ⟨"", 0, 0, 0⟩).category = cat := by
        have h1 : (featureRow (aggregateMonthly txs) i2).category = r2.category := by
          rw [hieq2]
        rw [featureRow_category] at h1
        rw [h1, hr2cat]
      rw [hcat'] at hy
      have hyv : y = v := priorAmounts_const _ _ _ _ hconst y hy
      rw [hieq2, hval, hyv]
    have hlagrow : lagRowOf b cat
        = some ⟨cat, r2.lag1, r2.lag2, r2.lag3, r2.pctChange, r2.cv⟩ := by
      unfold lagRowOf
      rw [hll]
      unfold latestLagsOf
      rw [find?_map_key LagCacheRow.category _ (latestLagsOf_elem_category _) _ cat hckS]
      rw [hr2]
    have hres : (resolvedLags b cat r1.catAvg).lag1 = v := by
      unfold resolvedLags
      rw [hlagrow]
      dsimp only
      rw [hr2lag]
      rfl
    have hsc : shortCircuit (CatStatRow.catStd ⟨cat, r1.catAvg, r1.catStd⟩)
        (resolvedLags b cat (CatStatRow.catAvg ⟨cat, r1.catAvg, r1.catStd⟩)).lag1
        (resolvedLags b cat (CatStatRow.catAvg ⟨cat, r1.catAvg, r1.catStd⟩)).lag2
        (resolvedLags b cat (CatStatRow.catAvg ⟨cat, r1.catAvg, r1.catStd⟩)).lag3 := by
      left
      dsimp only
      rw [hr1std]
      norm_num
    have hml := mlPredict_sc b cat month ⟨cat, r1.catAvg, r1.catStd⟩ hcl hcrow hsc
    unfold predictForMonth
    dsimp only
    rw [hml]
    dsimp only at hres ⊢
    rw [hres]

theorem constant_spending_short_circuit_witness :
    ∃ b, trainModel (fun _ _ => 0) 7 scenarioTxs = some b
      ∧ predictForMonth (some b) scenarioTxs "food" 7
          = ⟨50, "random_forest", Conf.high, true, true⟩ := by
  have hsome : (trainModel (fun _ _ => 0) 7 scenarioTxs).isSome = true := by decide
  obtain ⟨b, hb⟩ := Option.isSome_iff_exists.mp hsome
  have hcl : "food" ∈ b.classes := by
    obtain ⟨-, -, -, hcls, -, -⟩ := trainModel_eq _ _ _ _ hb
    rw [hcls]
    unfold sortedCats
    rw [List.mem_insertionSort, List.mem_dedup]
    decide
  have hconst : ∀ r ∈ aggregateMonthly scenarioTxs,
      r.category = "food" → r.amount = 50 := by
    intro r hr hrc
    obtain ⟨-, hblk⟩ := aggregate_mem scenarioTxs r hr
    rw [hrc] at hblk
    rcases List.mem_map.mp hblk with ⟨m, hm, hrm⟩
    rw [← hrm]
    rw [show loIdx scenarioTxs = 24300 from by decide,
      show hiIdx scenarioTxs = 24311 from by decide] at hm
    rw [List.mem_range'_1] at hm
    dsimp only
    have hm1 : 24300 ≤ m := hm.1
    have hm2 : m ≤ 24311 := by omega
    interval_cases m <;> norm_num [monthTxs, scenarioTxs]
  have h := constant_spending_short_circuit.2 (fun _ _ => 0) 7 scenarioTxs b
    "food" 7 50 hb hcl hconst
  refine ⟨b, hb, ?_⟩
  rw [h]
  have hr2 : round2 (50 : ℚ) = 50 := by
    unfold round2 roundHalfEven
    have h100 : (50 : ℚ) * 100 = 5000 := by norm_num
    rw [h100]
    have hfl : ⌊(5000 : ℚ)⌋ = 5000 := by norm_num
    rw [hfl]
    norm_num
  rw [hr2, max_eq_right (by norm_num : (0:ℚ) ≤ 50)]

/-! ### C9: past/current vs future target in `predict_all_categories` -/

theorem dropLast_range' : ∀ (k s : ℕ), (List.range' s (k+1)).dropLast = List.range' s k := by
  intro k
  induction k with
  | zero => intro s; rfl
  | succ m ih =>
    intro s
    rw [List.range'_succ]
    rw [show List.range' (s+1) (m+1) = (s+1) :: List.range' (s+1+1) m
        from List.range'_succ _ _ _]
    rw [List.dropLast_cons₂]
    rw [show ((s+1) :: List.range' (s+1+1) m) = List.range' (s+1) (m+1)
        from (List.range'_succ _ _ _).symm]
    rw [ih (s+1)]
    exact (List.range'_succ _ _ _).symm

theorem find?_last_only {α : Type} (p : α → Bool) :
    ∀ (l : List α) (x0 : α), (∀ x ∈ l.dropLast, p x = false) → l.getLast? = some x0 →
      p x0 = true → l.find? p = some x0 := by
  intro l
  induction l with
  | nil => intro x0 _ h; cases h
  | cons a t ih =>
    intro x0 hdrop hlast hp
    cases t with
    | nil =>
      rw [List.getLast?_singleton] at hlast
      have ha : a = x0 := Option.some.inj hlast
      subst ha
      rw [List.find?_cons_of_pos _ hp]
    | cons b t2 =>
      have hpa : p a = false := hdrop a (by
        rw [List.dropLast_cons₂]
        exact List.mem_cons_self _ _)
      rw [List.find?_cons_of_neg _ (by simp [hpa])]
      rw [List.getLast?_cons_cons] at hlast
      apply ih _ _ hlast hp
      intro x hx
      exact hdrop x (by
        rw [List.dropLast_cons₂]
        exact List.mem_cons_of_mem _ hx)

/-- The step-`i` forecast date matches the requested `(month, year)` exactly
when `i` equals the signed month difference. -/
theorem future_target_iff (nowY nowM year month i : ℕ)
    (h1 : 1 ≤ month) (h2 : month ≤ 12) (h3 : 1 ≤ nowM) (hi : 1 ≤ i) :
    (futureMonth nowM i = month ∧ futureYear nowY nowM i = year)
      ↔ (i : ℤ) = monthsDiff nowY nowM year month := by
  unfold futureMonth futureYear monthsDiff
  omega

theorem collectEntries_ok (f : ℕ × String → Except String CatEntry) :
    ∀ (cats : List (ℕ × String)), (∀ c ∈ cats, ∃ y, f c = Except.ok y) →
      ∃ ys, collectEntries f cats = Except.ok ys := by
  intro cats
  induction cats with
  | nil => intro _; exact ⟨[], rfl⟩
  | cons c rest ih =>
    intro h
    obtain ⟨y, hy⟩ := h c (List.mem_cons_self _ _)
    obtain ⟨ys, hys⟩ := ih (fun c2 h2 => h c2 (List.mem_cons_of_mem _ h2))
    refine ⟨y :: ys, ?_⟩
    rw [collectEntries, hy, hys]
    rfl

/-- C9: with the current date `(nowY, nowM)`, a requested `(year, month)` in
the past or current month (`months_diff ≤ 0`) makes every category's entry a
direct `predict_for_month` result; a strictly future request runs the
recursive forecast for exactly `months_diff` steps, whose last point is the
unique one matching the target `(month, year)` and is the one selected; the
returned list is a permutation (the final stable sort) of those entries. -/
theorem past_future_tie_break (fit : List (List ℚ × ℚ) → List ℚ → ℚ) (now : ℕ)
    (txs : List Tx) (cats : List (ℕ × String)) (month year nowY nowM : ℕ)
    (h1 : 1 ≤ month) (h2 : month ≤ 12) (h3 : 1 ≤ nowM) (h4 : nowM ≤ 12) :
    (monthsDiff nowY nowM year month ≤ 0 →
      ∀ c ∈ cats, paEntry (trainModel fit now txs) txs nowY nowM month year c
        = Except.ok ⟨c.1, c.2,
            (predictForMonth (trainModel fit now txs) txs c.2 month).amount,
            (predictForMonth (trainModel fit now txs) txs c.2 month).method,
            (predictForMonth (trainModel fit now txs) txs c.2 month).conf,
            (predictForMonth (trainModel fit now txs) txs c.2 month).hasData,
            (predictForMonth (trainModel fit now txs) txs c.2 month).isMl⟩)
    ∧ (0 < monthsDiff nowY nowM year month →
      ∀ c ∈ cats, ∃ l p,
        predictNextMonths (trainModel fit now txs) txs c.2
            (monthsDiff nowY nowM year month).toNat nowY nowM = Except.ok l
        ∧ l.get? ((monthsDiff nowY nowM year month).toNat - 1) = some p
        ∧ p.month = month ∧ p.year = year
        ∧ paEntry (trainModel fit now txs) txs nowY nowM month year c
            = Except.ok ⟨c.1, c.2, p.amount, p.method, p.conf, p.hasData, p.isMl⟩)
    ∧ (∃ entries raw,
        predictAllCategories (trainModel fit now txs) txs cats month year nowY nowM
          = Except.ok entries
        ∧ collectEntries (paEntry (trainModel fit now txs) txs nowY nowM month year)
            cats = Except.ok raw
        ∧ entries.Perm raw) := by
  have hfuture : 0 < monthsDiff nowY nowM year month →
      ∀ c2 : String, ∃ l p,
        predictNextMonths (trainModel fit now txs) txs c2
            (monthsDiff nowY nowM year month).toNat nowY nowM = Except.ok l
        ∧ l.get? ((monthsDiff nowY nowM year month).toNat - 1) = some p
        ∧ p.month = month ∧ p.year = year
        ∧ l.find? (fun q => q.month = month && q.year = year) = some p := by
    intro hmd c2
    set md := monthsDiff nowY nowM year month with hmddef
    set n := md.toNat with hndef
    have hn1 : 1 ≤ n := by omega
    have hnz : (n : ℤ) = md := Int.toNat_of_nonneg (le_of_lt hmd)
    have H : ∀ b, trainModel fit now txs = some b → c2 ∈ b.classes →
        ∀ m, (mlPredict b c2 m).isSome = true :=
      fun b hb hcl m => mlPredict_isSome_of_trained fit now txs b hb c2 hcl m
    obtain ⟨l, hl, hmap⟩ := pnmLoop_ok (trainModel fit now txs) txs c2 nowY nowM H
      (List.range' 1 n) (initialLags (trainModel fit now txs) c2)
    have hlen : l.length = n := by
      have := congrArg List.length hmap
      rwa [List.length_map, List.length_map, List.length_range'] at this
    -- the last point carries the target date
    have htargets : futureMonth nowM n = month ∧ futureYear nowY nowM n = year :=
      (future_target_iff nowY nowM year month n h1 h2 h3 hn1).mpr hnz
    have hlast0 : (List.map (fun p : FPoint => (p.month, p.year)) l).getLast?
        = some (futureMonth nowM n, futureYear nowY nowM n) := by
      rw [hmap, List.getLast?_map, List.getLast?_range', if_neg (by omega)]
      have harith : 1 + n - 1 = n := by omega
      rw [harith]
      rfl
    rw [List.getLast?_map] at hlast0
    have hex : ∃ p, l.getLast? = some p := by
      cases hcase : l.getLast? with
      | none => rw [hcase] at hlast0; cases hlast0
      | some q => exact ⟨q, rfl⟩
    obtain ⟨p, hp⟩ := hex
    rw [hp, Option.map_some'] at hlast0
    have hpmy : p.month = month ∧ p.year = year := by
      have := Option.some.inj hlast0
      have hm := congrArg Prod.fst this
      have hy := congrArg Prod.snd this
      dsimp at hm hy
      exact ⟨hm.trans htargets.1, hy.trans htargets.2⟩
    have hdl : (List.range' 1 n).dropLast = List.range' 1 (n-1) := by
      obtain ⟨k, hk⟩ : ∃ k, n = k + 1 := ⟨n - 1, by omega⟩
      rw [hk, dropLast_range']
      have : k + 1 - 1 = k := by omega
      rw [this]
    have hdropmap : (l.dropLast).map (fun p : FPoint => (p.month, p.year))
        = List.map (fun i => (futureMonth nowM i, futureYear nowY nowM i))
            (List.range' 1 (n-1)) := by
      rw [List.map_dropLast, hmap, ← List.map_dropLast, hdl]
    have hfind : l.find? (fun q => q.month = month && q.year = year) = some p := by
      apply find?_last_only _ l p ?_ hp (by simp [hpmy.1, hpmy.2])
      intro x hx
      have hxm : (x.month, x.year) ∈ List.map
          (fun i => (futureMonth nowM i, futureYear nowY nowM i))
          (List.range' 1 (n-1)) := by
        rw [← hdropmap]
        exact List.mem_map_of_mem _ hx
      rcases List.mem_map.mp hxm with ⟨j, hj, hkey⟩
      rw [List.mem_range'_1] at hj
      by_contra hcon
      rw [Bool.not_eq_false, Bool.and_eq_true, decide_eq_true_eq,
        decide_eq_true_eq] at hcon
      have hjm : futureMonth nowM j = month := by
        have := congrArg Prod.fst hkey
        dsimp at this
        rw [this, hcon.1]
      have hjy : futureYear nowY nowM j = year := by
        have := congrArg Prod.snd hkey
        dsimp at this
        rw [this, hcon.2]
      have hjz := (future_target_iff nowY nowM year month j h1 h2 h3 (by omega)).mp
        ⟨hjm, hjy⟩
      omega
    refine ⟨l, p, hl, ?_, hpmy.1, hpmy.2, hfind⟩
    rw [List.get?_eq_getElem?, ← hlen, ← List.getLast?_eq_getElem?]
    exact hp
  refine ⟨?_, ?_, ?_⟩
  · intro hmd c _
    unfold paEntry
    rw [if_pos hmd]
  · intro hmd c _
    obtain ⟨l, p, hl, hget, hm, hy, hfind⟩ := hfuture hmd c.2
    refine ⟨l, p, hl, hget, hm, hy, ?_⟩
    unfold paEntry
    rw [if_neg (by omega), hl]
    show Except.ok _ = _
    dsimp only
    rw [hfind]
  · have hok : ∀ c ∈ cats, ∃ y,
        paEntry (trainModel fit now txs) txs nowY nowM month year c = Except.ok y := by
      intro c _
      by_cases hmd : monthsDiff nowY nowM year month ≤ 0
      · refine ⟨⟨c.1, c.2,
          (predictForMonth (trainModel fit now txs) txs c.2 month).amount,
          (predictForMonth (trainModel fit now txs) txs c.2 month).method,
          (predictForMonth (trainModel fit now txs) txs c.2 month).conf,
          (predictForMonth (trainModel fit now txs) txs c.2 month).hasData,
          (predictForMonth (trainModel fit now txs) txs c.2 month).isMl⟩, ?_⟩
        unfold paEntry
        rw [if_pos hmd]
      · obtain ⟨l, p, hl, -, -, -, hfind⟩ := hfuture (by omega) c.2
        refine ⟨⟨c.1, c.2, p.amount, p.method, p.conf, p.hasData, p.isMl⟩, ?_⟩
        unfold paEntry
        rw [if_neg hmd, hl]
        show Except.ok _ = _
        dsimp only
        rw [hfind]
    obtain ⟨raw, hraw⟩ := collectEntries_ok _ cats hok
    refine ⟨raw.insertionSort entryLE, raw, ?_, hraw, List.perm_insertionSort _ _⟩
    unfold predictAllCategories
    rw [hraw]
    rfl

theorem past_future_tie_break_witness :
    (∃ l p, predictNextMonths (trainModel (fun _ _ => 0) 0 []) [] "c" 7 2026 10
        = Except.ok l
      ∧ l.get? 6 = some p ∧ p.month = 5 ∧ p.year = 2027
      ∧ paEntry (trainModel (fun _ _ => 0) 0 []) [] 2026 10 5 2027 (1, "c")
          = Except.ok ⟨1, "c", p.amount, p.method, p.conf, p.hasData, p.isMl⟩)
    ∧ (∃ entries raw,
        predictAllCategories (trainModel (fun _ _ => 0) 0 []) [] [(1, "c")] 5 2027 2026 10
          = Except.ok entries
        ∧ collectEntries (paEntry (trainModel (fun _ _ => 0) 0 []) [] 2026 10 5 2027)
            [(1, "c")] = Except.ok raw
        ∧ entries.Perm raw) := by
  have h := past_future_tie_break (fun _ _ => 0) 0 [] [(1, "c")] 5 2027 2026 10
    (by norm_num) (by norm_num) (by norm_num) (by norm_num)
  have hmd : (0 : ℤ) < monthsDiff 2026 10 2027 5 := by decide
  have htn : (monthsDiff 2026 10 2027 5).toNat = 7 := by decide
  obtain ⟨l, p, hl, hget, hm, hy, hpa⟩ := h.2.1 hmd (1, "c") (List.mem_cons_self _ _)
  rw [htn] at hl
  rw [htn] at hget
  exact ⟨⟨l, p, hl, hget, hm, hy, hpa⟩, h.2.2⟩

/-! ### C3 counterexample: the fallback returns rounded means, not means -/

/-- C3 counterexample: for three monthly totals 1, 1, 2 and a requested month
with no history, the fallback's `recent_average` branch returns
`round(mean, 2) = 1.33`, not the arithmetic mean `4/3` — the claim "returns
the mean of the 3 most recent" fails at this input. -/
theorem stats_mean_rounding_cx :
    statsPredict txsThirds "food" 4 = ⟨133/100, "recent_average", Conf.low, true⟩
    ∧ (monthlyTotals txsThirds "food").map Prod.snd = [1, 1, 2]
    ∧ meanQ [(1 : ℚ), 1, 2] = 4/3
    ∧ (133/100 : ℚ) ≠ 4/3 := by
  have htot : (monthlyTotals txsThirds "food").map Prod.snd = [1, 1, 2] := by
    simp [monthlyTotals, txsThirds, catTxsOf, monthTxs,
      List.insertionSort, List.orderedInsert]
  have hmean : meanQ [(1 : ℚ), 1, 2] = 4/3 := by
    norm_num [meanQ]
  refine ⟨?_, htot, hmean, by norm_num⟩
  unfold statsPredict
  dsimp only
  rw [if_neg (by decide : ¬ (txsThirds.isEmpty = true)),
    if_neg (by decide : ¬ ((catTxsOf txsThirds "food").isEmpty = true)),
    if_neg (by decide : ¬ 2 ≤ ((monthlyTotals txsThirds "food").filter
      (fun p => p.1 % 12 + 1 = 4)).length),
    if_pos (by decide : 3 ≤ (monthlyTotals txsThirds "food").length)]
  rw [show (monthlyTotals txsThirds "food").length - 3 = 0 from by decide,
    List.drop_zero, htot, hmean]
  have hround : round2 (4/3 : ℚ) = 133/100 := by
    unfold round2 roundHalfEven
    have h1 : (4 : ℚ)/3 * 100 = 400/3 := by norm_num
    rw [h1]
    have hfl : ⌊(400 : ℚ)/3⌋ = 133 := by
      norm_num [Int.floor_eq_iff]
    rw [hfl]
    norm_num
  rw [hround]

/-! ### C5 counterexample: the short-circuit does not return the last
observed value -/

/-- C5 counterexample: on `cxTxs` (eight monthly totals of `10.005` followed
by one of `500`) the cached lags of the trained bundle are the totals of the
three months preceding the last one (all `10.005`), so the constant-spending
guard fires and the forecast is `10` with `confidence=high` — while the last
observed monthly total is `500` and even the cached `lag_1` itself is
`10.005`: the claim "returns the last observed value (clipped to ≥ 0)" fails
at this input both because the cached `lag_1` is the amount of the month
preceding the last observed month and because it is rounded to 2 decimals. -/
theorem short_circuit_not_last_observed :
    ∃ b, trainModel (fun _ _ => 0) 3 cxTxs = some b
      ∧ predictForMonth (some b) cxTxs "food" 7
          = ⟨10, "random_forest", Conf.high, true, true⟩
      ∧ hiIdx cxTxs = 24308
      ∧ ((monthTxs cxTxs "food" 24308).map Tx.amount).sum = 500
      ∧ ((monthTxs cxTxs "food" 24307).map Tx.amount).sum = 2001/200
      ∧ (10 : ℚ) ≠ max 0 500 ∧ (10 : ℚ) ≠ 2001/200 := by
  have hsome : (trainModel (fun _ _ => 0) 3 cxTxs).isSome = true := by decide
  obtain ⟨b, hb⟩ := Option.isSome_iff_exists.mp hsome
  obtain ⟨htx, hum, hkeptl, hcls, hcs, hll⟩ := trainModel_eq _ _ _ _ hb
  have hcl : "food" ∈ b.classes := by
    rw [hcls]
    unfold sortedCats
    rw [List.mem_insertionSort, List.mem_dedup]
    decide
  have hckS : "food" ∈ sortedCats
      ((keptRows (aggregateMonthly cxTxs)).map FRow.category) := by
    unfold sortedCats
    rw [List.mem_insertionSort, List.mem_dedup]
    decide
  have hlast : ((keptRows (aggregateMonthly cxTxs)).filter
      (fun r => r.category = "food")).getLast?
      = some (featureRow (aggregateMonthly cxTxs) 8) := rfl
  have hl1 : (featureRow (aggregateMonthly cxTxs) 8).lag1
      = some (((monthTxs cxTxs "food" 24307).map Tx.amount).sum) := rfl
  have hl2 : (featureRow (aggregateMonthly cxTxs) 8).lag2
      = some (((monthTxs cxTxs "food" 24306).map Tx.amount).sum) := rfl
  have hl3 : (featureRow (aggregateMonthly cxTxs) 8).lag3
      = some (((monthTxs cxTxs "food" 24305).map Tx.amount).sum) := rfl
  have hs7 : ((monthTxs cxTxs "food" 24307).map Tx.amount).sum = 2001/200 := by
    norm_num [monthTxs, cxTxs]
  have hs6 : ((monthTxs cxTxs "food" 24306).map Tx.amount).sum = 2001/200 := by
    norm_num [monthTxs, cxTxs]
  have hs5 : ((monthTxs cxTxs "food" 24305).map Tx.amount).sum = 2001/200 := by
    norm_num [monthTxs, cxTxs]
  have hlagrow : lagRowOf b "food" = some ⟨"food",
      (featureRow (aggregateMonthly cxTxs) 8).lag1,
      (featureRow (aggregateMonthly cxTxs) 8).lag2,
      (featureRow (aggregateMonthly cxTxs) 8).lag3,
      (featureRow (aggregateMonthly cxTxs) 8).pctChange,
      (featureRow (aggregateMonthly cxTxs) 8).cv⟩ := by
    unfold lagRowOf
    rw [hll]
    unfold latestLagsOf
    rw [find?_map_key LagCacheRow.category _ (latestLagsOf_elem_category _) _ "food" hckS]
    rw [hlast]
  have hcrowS : (catRowOf b "food").isSome = true := by
    unfold catRowOf
    rw [hcs]
    unfold catStatsOf
    rw [find?_map_key CatStatRow.category _ (catStatsOf_elem_category _) _ "food" hckS]
    rfl
  obtain ⟨crow, hcw⟩ := Option.isSome_iff_exists.mp hcrowS
  have hres1 : (resolvedLags b "food" crow.catAvg).lag1 = 2001/200 := by
    unfold resolvedLags
    rw [hlagrow]
    dsimp only
    rw [hl1, Option.getD_some]
    exact hs7
  have hres2 : (resolvedLags b "food" crow.catAvg).lag2 = 2001/200 := by
    unfold resolvedLags
    rw [hlagrow]
    dsimp only
    rw [hl2, Option.getD_some]
    exact hs6
  have hres3 : (resolvedLags b "food" crow.catAvg).lag3 = 2001/200 := by
    unfold resolvedLags
    rw [hlagrow]
    dsimp only
    rw [hl3, Option.getD_some]
    exact hs5
  have hsc : shortCircuit crow.catStd (resolvedLags b "food" crow.catAvg).lag1
      (resolvedLags b "food" crow.catAvg).lag2
      (resolvedLags b "food" crow.catAvg).lag3 := by
    right
    rw [hres1, hres2, hres3]
    norm_num
  have hml := mlPredict_sc b "food" 7 crow hcl hcw hsc
  rw [hres1] at hml
  have hround : round2 (2001/200 : ℚ) = 10 := by
    unfold round2 roundHalfEven
    have h1 : (2001 : ℚ)/200 * 100 = 2001/2 := by norm_num
    rw [h1]
    have hfl : ⌊(2001 : ℚ)/2⌋ = 1000 := by
      norm_num [Int.floor_eq_iff]
    rw [hfl]
    norm_num
  rw [hround, max_eq_right (by norm_num : (0:ℚ) ≤ 10)] at hml
  refine ⟨b, hb, ?_, by decide, ?_, hs7, by norm_num, by norm_num⟩
  · unfold predictForMonth
    dsimp only
    rw [hml]
  · norm_num [monthTxs, cxTxs]

end BudgetApp
